import Mathlib

/-!
# Schema composition (`packages/gatsby/src/schema/schema.js`)

A shallow embedding of the schema builder: the registry (`schemaComposer`), the
explicit-definition adapter (`addTypes`), the node-type enricher
(`processTypeComposer`), the third-party merge (`addThirdPartySchemas`) and the
resolver overlay (`createResolvers`), followed by theorems about them.

Conventions of the embedding.

* A JavaScript object used as a dictionary is an association list in insertion
  order with at most one entry per key (`Obj`); writing a key that exists
  replaces its value in place, writing a new key appends it.
* A function that can throw returns the state reached together with the error,
  if any (`Result`), so that the state at the point of failure can be inspected.
* An object that is mutated through a reference (a type composer held by the
  registry) is referred to by the name under which the registry holds it.
* The registry `schemaComposer` belongs to the graphql-compose library. Its methods
  that `schema.js` calls are embedded by their effect on the type storage: `add`,
  `addAsComposer` and `set` store a type under its name, `get`, `has` and `getTC` look
  a name up, and the getter `Query` is the object type stored under the name `Query`.
* Other library functions (`assertValidName`, `camelCase`, the parser of type
  definitions, `isSpecifiedScalarType`, `isIntrospectionType`), the node store and
  the input-type synthesizers are parameters.
-/

set_option autoImplicit false

namespace GatsbySchema

/-! ## JavaScript objects as insertion-ordered dictionaries -/

/-- A dictionary object: keys in insertion order. (JavaScript lists keys that look
like array indices first; type names and field names are not of that form.) -/
abbrev Obj (α : Type) := List (String × α)

namespace Obj

variable {α : Type}

/-- Property read `o[k]`. -/
def get : Obj α → String → Option α
  | [], _ => none
  | (k, v) :: rest, key => if k = key then some v else get rest key

/-- Property test `k in o`. -/
def has (o : Obj α) (key : String) : Bool := (get o key).isSome

/-- Property write `o[k] = v`: replaces in place, or appends a new key. -/
def set : Obj α → String → α → Obj α
  | [], key, val => [(key, val)]
  | (k, v) :: rest, key, val =>
    if k = key then (k, val) :: rest else (k, v) :: set rest key val

/-- Merge `Object.assign(o, src)`: writes every entry of `src` in order. -/
def assign (o : Obj α) (src : Obj α) : Obj α :=
  src.foldl (fun acc kv => set acc kv.1 kv.2) o

/-- The keys, `Object.keys(o)`. -/
def keys (o : Obj α) : List String := o.map Prod.fst

/-- The values, `_.values(o)`. -/
def values (o : Obj α) : List α := o.map Prod.snd

end Obj

/-! ## Errors and early exit -/

/-- The exceptions that `schema.js` (or a library call it makes) can raise. -/
inductive Error
  /-- Message: The GraphQL type Node is reserved for internal use. -/
  | reservedNode
  /-- Message: GraphQL type names ending with "FilterInput" or "SortInput" are reserved. -/
  | reservedSuffix (name : String)
  /-- Message: the type is reserved for internal use by built-in scalar types. -/
  | reservedScalar (name : String)
  /-- The error thrown by `assertValidName` of the graphql library. -/
  | invalidName (name : String)
  /-- A failure parsing type definitions given as text. -/
  | parsingError (source : String)
  /-- A `TypeError` of the JavaScript runtime (property access on `undefined`). -/
  | typeError (what : String)
  /-- Thrown by `schemaComposer.getTC` when no object type of that name exists. -/
  | cannotFindTypeComposer (typeName : String)
  deriving DecidableEq, Repr

/-- A state together with the exception that interrupted the computation, if any. -/
abbrev Result (σ : Type) := σ × Option Error

/-- The loop `xs.forEach(x => body)` over a mutable state: stops at the first exception. -/
def forEach {σ α : Type} (body : σ → α → Result σ) : List α → σ → Result σ
  | [], s => (s, none)
  | x :: xs, s =>
    match body s x with
    | (s1, none) => forEach body xs s1
    | (s1, some e) => (s1, some e)

/-- The helper `invariant(condition, message)`: throws when the condition is false. -/
def invariant (condition : Bool) (err : Error) : Except Error Unit :=
  if condition then .ok () else .error err

/-! ## Name validation -/

/-- The method `String.prototype.endsWith`. -/
def endsWith (name suffix : String) : Bool := suffix.data.isSuffixOf name.data

/-- The seven built-in scalar names of `checkIsAllowedTypeName`. -/
def reservedScalarNames : List String :=
  ["Boolean", "Date", "Float", "ID", "Int", "JSON", "String"]

/-- Embedding of `checkIsAllowedTypeName`; `assertValidName` is the graphql library function. -/
def checkIsAllowedTypeName (assertValidName : String → Except Error Unit)
    (name : String) : Except Error Unit := do
  invariant (name != "Node") .reservedNode
  invariant (!endsWith name "FilterInput" && !endsWith name "SortInput") (.reservedSuffix name)
  invariant (!reservedScalarNames.contains name) (.reservedScalar name)
  assertValidName name

/-! ## Field configurations and resolve functions -/

/-- The synthesized input type of a node type (the result of `getSortInput` or
`getFilterInput`): its name and, for each input field, the text of the field's type. -/
structure InputTypeComposer where
  typeName : String
  fields : Obj String
  deriving DecidableEq, Repr

/-- A value used as the `type` of a field, argument or resolver. -/
inductive TypeDef
  /-- A string such as `Int`. -/
  | name (s : String)
  /-- A GraphQL type object; `text` is what its `toString()` returns. -/
  | object (text : String)
  /-- The function `() => typeName` of `createChildField`. -/
  | thunkName (typeName : String)
  /-- The function `() => [typeName]` of `createChildrenField`. -/
  | thunkList (typeName : String)
  /-- An output type composer, referred to by its type name. -/
  | typeComposer (typeName : String)
  /-- A synthesized input type composer. -/
  | inputTypeComposer (itc : InputTypeComposer)
  deriving DecidableEq, Repr

/-- JavaScript truthiness of a `type` value: only the empty string is falsy. -/
def TypeDef.truthy : TypeDef → Bool
  | .name s => s != ""
  | _ => true

/-- The result of `.toString()` on a `type` value as plugin code wrote it. -/
def TypeDef.toString : TypeDef → String
  | .name s => s
  | .object text => text
  | .thunkName _ => "() => typeName"
  | .thunkList _ => "() => [typeName]"
  | .typeComposer _ => "[object Object]"
  | .inputTypeComposer _ => "[object Object]"

/-- The text of the GraphQL type object that the composer resolves a `type` value to
(what `getFieldConfig(f).type.toString()` returns). -/
def TypeDef.resolvedText : TypeDef → String
  | .name s => s
  | .object text => text
  | .thunkName typeName => typeName
  | .thunkList typeName => "[" ++ typeName ++ "]"
  | .typeComposer typeName => typeName
  | .inputTypeComposer itc => itc.typeName

/-- A function value used as the `resolve` of a field. -/
inductive ResolveFn
  /-- The function `defaultFieldResolver` of the graphql library. -/
  | defaultFieldResolver
  /-- The function `findOne(typeName)` of `./resolvers`. -/
  | findOne (typeName : String)
  /-- The function `findManyPaginated(typeName)` of `./resolvers`. -/
  | findManyPaginated (typeName : String)
  /-- The `resolve` method written in `createChildrenField`. -/
  | childrenField (typeName : String)
  /-- The `resolve` method written in `createChildField`. -/
  | childField (typeName : String)
  /-- A function written by plugin code, identified by a number. -/
  | external (id : Nat)
  /-- The arrow function built in `createResolvers`: it closes over the patch's
  `resolve` and over `originalResolver || defaultFieldResolver`. -/
  | overlay (resolve : ResolveFn) (originalResolver : ResolveFn)
  deriving DecidableEq, Repr

/-- A value of the `info` object handed to a resolve function. -/
inductive InfoValue
  | data (json : String)
  | resolver (fn : ResolveFn)
  deriving DecidableEq, Repr

/-- Calling a resolve function with `(source, args, context, info)`. Runtime values
are represented by their JSON text; `prim` is the behaviour of the functions that
are not written in `schema.js`. -/
def ResolveFn.call (prim : ResolveFn → String → String → String → Obj InfoValue → String) :
    ResolveFn → String → String → String → Obj InfoValue → String
  | .overlay resolve originalResolver, source, args, context, info =>
    ResolveFn.call prim resolve source args context
      (Obj.set info "originalResolver" (.resolver originalResolver))
  | .defaultFieldResolver, source, args, context, info =>
    prim .defaultFieldResolver source args context info
  | .findOne t, source, args, context, info => prim (.findOne t) source args context info
  | .findManyPaginated t, source, args, context, info =>
    prim (.findManyPaginated t) source args context info
  | .childrenField t, source, args, context, info =>
    prim (.childrenField t) source args context info
  | .childField t, source, args, context, info => prim (.childField t) source args context info
  | .external id, source, args, context, info => prim (.external id) source args context info

/-- A field config: each property may be absent. -/
structure FieldConfig where
  type : Option TypeDef
  args : Option (Obj TypeDef)
  resolve : Option ResolveFn
  deriving DecidableEq, Repr

/-- A resolver object attached to a type composer with `addResolver`. -/
structure Resolver where
  name : String
  type : TypeDef
  args : Obj TypeDef
  resolve : ResolveFn
  deriving DecidableEq, Repr

/-- The field config that a resolver object stands for when used as a field. -/
def Resolver.toFieldConfig (r : Resolver) : FieldConfig :=
  { type := some r.type, args := some r.args, resolve := some r.resolve }

/-! ## The registry -/

/-- The composer classes of the registry. -/
inductive Kind
  | TypeComposer
  | InputTypeComposer
  | UnionTypeComposer
  | InterfaceTypeComposer
  | EnumTypeComposer
  | ScalarType
  deriving DecidableEq, Repr

/-- A type-resolution rule of an interface or union. -/
inductive ResolveType
  /-- The rule `node => node.internal.type` installed by `processAddedType`. -/
  | internalType
  /-- A rule given with the type definition. -/
  | custom (id : Nat)
  deriving DecidableEq, Repr

/-- A named type held by the registry. -/
structure TypeComposer where
  kind : Kind
  name : String
  fields : Obj FieldConfig
  interfaces : List String
  types : List String
  resolveType : Option ResolveType
  resolvers : Obj Resolver
  inputTypeComposer : Option InputTypeComposer
  isThirdPartyType : Bool
  deriving DecidableEq, Repr

namespace TypeComposer

/-- A new composer with only a kind and a name. -/
def create (kind : Kind) (name : String) : TypeComposer :=
  { kind := kind, name := name, fields := [], interfaces := [], types := [],
    resolveType := none, resolvers := [], inputTypeComposer := none,
    isThirdPartyType := false }

/-- The method `hasInterface`. -/
def hasInterface (tc : TypeComposer) (iface : String) : Bool := tc.interfaces.contains iface

/-- The method `addFields`: merges the new fields over the existing ones. -/
def addFields (tc : TypeComposer) (newFields : Obj FieldConfig) : TypeComposer :=
  { tc with fields := tc.fields.assign newFields }

/-- The method `addResolver`: stores the resolver under its name. -/
def addResolver (tc : TypeComposer) (r : Resolver) : TypeComposer :=
  { tc with resolvers := tc.resolvers.set r.name r }

/-- The method `removeInputTypeComposer`. -/
def removeInputTypeComposer (tc : TypeComposer) : TypeComposer :=
  { tc with inputTypeComposer := none }

/-- The method `extendField`: the previous config overridden by the properties
that the partial config has. -/
def extendField (tc : TypeComposer) (fieldName : String) (partialConfig : FieldConfig) :
    TypeComposer :=
  match tc.fields.get fieldName with
  | none => tc
  | some prev =>
    let merged : FieldConfig :=
      { type := partialConfig.type <|> prev.type,
        args := partialConfig.args <|> prev.args,
        resolve := partialConfig.resolve <|> prev.resolve }
    { tc with fields := tc.fields.set fieldName merged }

end TypeComposer

/-- The registry `schemaComposer`: the named types and the list of types that must
appear in the final schema. -/
structure SchemaComposer where
  types : Obj TypeComposer
  schemaMustHaveTypes : List String
  deriving DecidableEq, Repr

namespace SchemaComposer

/-- The method `has`. -/
def has (sc : SchemaComposer) (typeName : String) : Bool := sc.types.has typeName

/-- The method `get`. -/
def get (sc : SchemaComposer) (typeName : String) : Option TypeComposer := sc.types.get typeName

/-- The method `set`. -/
def set (sc : SchemaComposer) (typeName : String) (tc : TypeComposer) : SchemaComposer :=
  { sc with types := sc.types.set typeName tc }

/-- The method `add`: stores a type under its own name. -/
def add (sc : SchemaComposer) (type : TypeComposer) : SchemaComposer := sc.set type.name type

/-- The method `addAsComposer`: stores the type as a composer and returns its name. -/
def addAsComposer (sc : SchemaComposer) (type : TypeComposer) : SchemaComposer × String :=
  (sc.set type.name type, type.name)

/-- The method `addSchemaMustHaveType`. -/
def addSchemaMustHaveType (sc : SchemaComposer) (typeName : String) : SchemaComposer :=
  { sc with schemaMustHaveTypes := sc.schemaMustHaveTypes ++ [typeName] }

/-- The method `getTC`: the object type composer of that name, or an exception. -/
def getTC (sc : SchemaComposer) (typeName : String) : Except Error TypeComposer :=
  match sc.types.get typeName with
  | some tc => if tc.kind = .TypeComposer then .ok tc else .error (.cannotFindTypeComposer typeName)
  | none => .error (.cannotFindTypeComposer typeName)

/-- The getter `Query`: the object type composer named `Query`, created and stored
when the registry has none. -/
def Query (sc : SchemaComposer) : SchemaComposer × TypeComposer :=
  match sc.getTC "Query" with
  | .ok tc => (sc, tc)
  | .error _ =>
    let tc := TypeComposer.create .TypeComposer "Query"
    (sc.set "Query" tc, tc)

end SchemaComposer

/-! ## Explicit type definitions: `addTypes` -/

/-- The kinds of `GatsbyGraphQLTypeKind`. -/
inductive GatsbyGraphQLTypeKind
  | OBJECT
  | INPUT_OBJECT
  | UNION
  | INTERFACE
  deriving DecidableEq, Repr

/-- The `config` of a type built with the type builders. -/
structure GatsbyTypeConfig where
  name : String
  fields : Obj FieldConfig
  interfaces : Option (List String)
  resolveType : Option ResolveType
  deriving DecidableEq, Repr

/-- A type built with the type builders (`isGatsbyType`); `kind` is `none` when it
is none of the four kinds. -/
structure GatsbyType where
  kind : Option GatsbyGraphQLTypeKind
  config : GatsbyTypeConfig
  types : Option (List String)
  deriving DecidableEq, Repr

/-- An element of the `types` array given to `addTypes`. -/
inductive TypeOrTypeDef
  /-- Type definitions as text (`typeof typeOrTypeDef === "string"`). -/
  | typeDefs (source : String)
  /-- A type built with the type builders. -/
  | gatsbyType (type : GatsbyType)
  /-- Any other value: a GraphQL type or a composer. -/
  | type (type : TypeComposer)
  deriving DecidableEq, Repr

/-- Embedding of `createTypeComposerFromGatsbyType`: a temporary composer (not yet
in the registry), or `null` for an illegal kind. -/
def createTypeComposerFromGatsbyType (type : GatsbyType) : Option TypeComposer :=
  match type.kind with
  | some .OBJECT =>
    some { TypeComposer.create .TypeComposer type.config.name with
      fields := type.config.fields
      interfaces := type.config.interfaces.getD [] }
  | some .INPUT_OBJECT =>
    some { TypeComposer.create .InputTypeComposer type.config.name with
      fields := type.config.fields }
  | some .UNION =>
    some { TypeComposer.create .UnionTypeComposer type.config.name with
      types := type.types.getD []
      resolveType := type.config.resolveType }
  | some .INTERFACE =>
    some { TypeComposer.create .InterfaceTypeComposer type.config.name with
      fields := type.config.fields
      resolveType := type.config.resolveType }
  | none => none

/-- The method `schemaComposer.addTypeDefs`: parses the text with the library's
parser, stores every parsed type and returns the parsed types. -/
def SchemaComposer.addTypeDefs (parseTypeDefs : String → Except Error (List TypeComposer))
    (sc : SchemaComposer) (source : String) : SchemaComposer × Except Error (List TypeComposer) :=
  match parseTypeDefs source with
  | .error e => (sc, .error e)
  | .ok parsed => (parsed.foldl (fun acc type => acc.add type) sc, .ok parsed)

/-- Embedding of `processAddedType`. -/
def processAddedType (assertValidName : String → Except Error Unit)
    (schemaComposer : SchemaComposer) (type : TypeComposer) : Result SchemaComposer :=
  let (sc1, typeName) := schemaComposer.addAsComposer type
  match checkIsAllowedTypeName assertValidName typeName with
  | .error e => (sc1, some e)
  | .ok () =>
    match sc1.get typeName with
    | none => (sc1, some (.cannotFindTypeComposer typeName))
    | some typeComposer =>
      let typeComposer1 :=
        if (typeComposer.kind = .InterfaceTypeComposer ∨ typeComposer.kind = .UnionTypeComposer)
            ∧ typeComposer.resolveType = none then
          { typeComposer with resolveType := some .internalType }
        else typeComposer
      ((sc1.set typeName typeComposer1).addSchemaMustHaveType typeName, none)

/-- Embedding of `addTypes`. A parse failure ends in `reportParsingError`, which
either aborts with `report.panic` or rethrows: both are the failure of the call. -/
def addTypes (assertValidName : String → Except Error Unit)
    (parseTypeDefs : String → Except Error (List TypeComposer))
    (types : List TypeOrTypeDef) (schemaComposer : SchemaComposer) : Result SchemaComposer :=
  forEach (fun sc typeOrTypeDef =>
    match typeOrTypeDef with
    | .typeDefs source =>
      match sc.addTypeDefs parseTypeDefs source with
      | (sc1, .error e) => (sc1, some e)
      | (sc1, .ok addedTypes) => forEach (processAddedType assertValidName) addedTypes sc1
    | .gatsbyType gatsbyType =>
      match createTypeComposerFromGatsbyType gatsbyType with
      | some type => processAddedType assertValidName sc type
      | none => (sc, none)
    | .type type => processAddedType assertValidName sc type) types schemaComposer

/-! ## The node store and lodash helpers -/

/-- The `internal` object of a node. -/
structure Internal where
  type : String
  deriving DecidableEq, Repr

/-- A node: `parent` is an id or `null`, `children` a list of ids or absent,
`internal` the metadata or absent. -/
structure Node where
  id : String
  parent : Option String
  children : Option (List String)
  internal : Option Internal
  deriving DecidableEq, Repr

/-- The node storage collaborator. -/
structure NodeStore where
  getNodesByType : String → List Node
  getNode : String → Option Node

/-- The function `_.groupBy`: groups in order of first occurrence of their key, each
group in the order of the collection. -/
def groupBy {α : Type} (iteratee : α → String) (collection : List α) : Obj (List α) :=
  collection.foldl (fun result value =>
    match result.get (iteratee value) with
    | some group => result.set (iteratee value) (group ++ [value])
    | none => result.set (iteratee value) [value]) []

/-- The function `_.maxBy` on numbers: the first element with the greatest value,
`undefined` for an empty array. -/
def maxBy {α : Type} (iteratee : α → Nat) (array : List α) : Option α :=
  array.foldl (fun result value =>
    match result with
    | none => some value
    | some best => if iteratee value > iteratee best then some value else some best) none

/-- A list as an optional non-empty list: how a group appears under a key of `groupBy`. -/
def nonEmpty? {α : Type} (l : List α) : Option (List α) := if l.isEmpty then none else some l

/-- All elements when none is `undefined`. -/
def allDefined {α : Type} : List (Option α) → Option (List α)
  | [] => some []
  | none :: _ => none
  | some x :: rest => (allDefined rest).map (fun xs => x :: xs)

/-- The grouping key `node.internal ? node.internal.type : undefined`, as the
property name that `groupBy` makes of it. -/
def internalTypeKey (node : Node) : String :=
  match node.internal with
  | some internal => internal.type
  | none => "undefined"

/-- The grouping key `c.parent` as a property name. -/
def parentKey (c : Node) : String :=
  match c.parent with
  | some id => id
  | none => "null"

/-! ## Relationship fields -/

/-- The field config written in `createChildrenField`: a list of `typeName`. -/
def childrenFieldConfig (typeName : String) : FieldConfig :=
  { type := some (.thunkList typeName), args := none, resolve := some (.childrenField typeName) }

/-- The field config written in `createChildField`: one `typeName`. -/
def childFieldConfig (typeName : String) : FieldConfig :=
  { type := some (.thunkName typeName), args := none, resolve := some (.childField typeName) }

/-- Embedding of `createChildrenField`. -/
def createChildrenField (camelCase : String → String) (typeName : String) : Obj FieldConfig :=
  [(camelCase ("children " ++ typeName), childrenFieldConfig typeName)]

/-- Embedding of `createChildField`. -/
def createChildField (camelCase : String → String) (typeName : String) : Obj FieldConfig :=
  [(camelCase ("child " ++ typeName), childFieldConfig typeName)]

/-- The array `(node.children || []).map(nodeStore.getNode)` flattened over the nodes. -/
def childNodes (nodeStore : NodeStore) (nodes : List Node) : List (Option Node) :=
  nodes.flatMap (fun node => (node.children.getD []).map nodeStore.getNode)

/-- Embedding of `groupChildNodesByType`: reading `internal` of an `undefined`
child is a `TypeError`. -/
def groupChildNodesByType (nodeStore : NodeStore) (nodes : List Node) :
    Except Error (Obj (List Node)) :=
  match allDefined (childNodes nodeStore nodes) with
  | none => .error (.typeError "Cannot read property internal of undefined")
  | some children => .ok (groupBy internalTypeKey children)

/-- The body of the loop of `addConvenienceChildrenFields` for one child type. -/
def addConvenienceChildrenField (camelCase : String → String)
    (childNodesByType : Obj (List Node)) (typeComposer : TypeComposer) (typeName : String) :
    Result TypeComposer :=
  let typeChildren := (childNodesByType.get typeName).getD []
  match maxBy List.length (Obj.values (groupBy parentKey typeChildren)) with
  | none => (typeComposer, some (.typeError "Cannot read property length of undefined"))
  | some group =>
    let maxChildCount := group.length
    if maxChildCount > 1 then
      (typeComposer.addFields (createChildrenField camelCase typeName), none)
    else
      (typeComposer.addFields (createChildField camelCase typeName), none)

/-- Embedding of `addConvenienceChildrenFields`. -/
def addConvenienceChildrenFields (camelCase : String → String) (nodeStore : NodeStore)
    (typeComposer : TypeComposer) : Result TypeComposer :=
  let nodes := nodeStore.getNodesByType typeComposer.name
  match groupChildNodesByType nodeStore nodes with
  | .error e => (typeComposer, some e)
  | .ok childNodesByType =>
    forEach (addConvenienceChildrenField camelCase childNodesByType)
      (Obj.keys childNodesByType) typeComposer

/-! ## Enrichment of a node type: `processTypeComposer` -/

/-- Modelled from the spec: `addNodeInterfaceFields` of `./types/node-interface`
is not in this file; it injects the uniform node-identity field set, here the
parameter `nodeInterfaceFields`, into the type. -/
def addNodeInterfaceFields (nodeInterfaceFields : Obj FieldConfig)
    (typeComposer : TypeComposer) : TypeComposer :=
  typeComposer.addFields nodeInterfaceFields

/-- The fields of an input type composer as arguments (`filterInputTC.getFields()`). -/
def InputTypeComposer.getFields (itc : InputTypeComposer) : Obj TypeDef :=
  itc.fields.map (fun kv => (kv.1, TypeDef.name kv.2))

/-- Embedding of `addResolvers`. The synthesizers `getSortInput`, `getFilterInput`
and `getPagination` are functions of the type's name and current field set. -/
def addResolvers (getSortInput getFilterInput : String → Obj FieldConfig → InputTypeComposer)
    (getPagination : String → Obj FieldConfig → TypeDef)
    (typeComposer : TypeComposer) : TypeComposer :=
  let typeName := typeComposer.name
  let tc0 := typeComposer.removeInputTypeComposer
  let sortInputTC := getSortInput typeName tc0.fields
  let filterInputTC := getFilterInput typeName tc0.fields
  let paginationTC := getPagination typeName tc0.fields
  let tc1 := tc0.addResolver
    { name := "findOne", type := .typeComposer typeName,
      args := filterInputTC.getFields, resolve := .findOne typeName }
  tc1.addResolver
    { name := "findManyPaginated", type := paginationTC,
      args := [("filter", .inputTypeComposer filterInputTC),
               ("sort", .inputTypeComposer sortInputTC),
               ("skip", .name "Int"), ("limit", .name "Int")],
      resolve := .findManyPaginated typeName }

/-- Embedding of `addTypeToRootQuery`; `getResolver` throws when the resolver is missing. -/
def addTypeToRootQuery (camelCase : String → String) (schemaComposer : SchemaComposer)
    (typeComposer : TypeComposer) : Result SchemaComposer :=
  let typeName := typeComposer.name
  let queryName := camelCase typeName
  let queryNamePlural := camelCase ("all " ++ typeName)
  let (sc1, query) := schemaComposer.Query
  match typeComposer.resolvers.get "findOne", typeComposer.resolvers.get "findManyPaginated" with
  | some findOne, some findManyPaginated =>
    let newFields : Obj FieldConfig :=
      Obj.set (Obj.set [] queryName findOne.toFieldConfig)
        queryNamePlural findManyPaginated.toFieldConfig
    (sc1.set "Query" (query.addFields newFields), none)
  | _, _ => (sc1, some (.typeError "Type does not have resolver"))

/-- Embedding of `processTypeComposer`. The composer object is referred to by the
name under which the registry holds it. -/
def processTypeComposer (camelCase : String → String) (nodeInterfaceFields : Obj FieldConfig)
    (getSortInput getFilterInput : String → Obj FieldConfig → InputTypeComposer)
    (getPagination : String → Obj FieldConfig → TypeDef) (nodeStore : NodeStore)
    (schemaComposer : SchemaComposer) (typeName : String) : Result SchemaComposer :=
  match schemaComposer.get typeName with
  | none => (schemaComposer, none)
  | some typeComposer =>
    if typeComposer.kind = .TypeComposer ∧ typeComposer.hasInterface "Node" = true then
      let tc1 := addNodeInterfaceFields nodeInterfaceFields typeComposer
      let tc2 := addResolvers getSortInput getFilterInput getPagination tc1
      match addConvenienceChildrenFields camelCase nodeStore tc2 with
      | (tc3, some e) => (schemaComposer.set typeName tc3, some e)
      | (tc3, none) => addTypeToRootQuery camelCase (schemaComposer.set typeName tc3) tc3
    else (schemaComposer, none)

/-! ## Third-party schemas -/

/-- The assignment `type.isThirdPartyType = true`. -/
def markThirdParty (type : TypeComposer) : TypeComposer :=
  { type with isThirdPartyType := true }

/-- A warning given to `report.warn`. -/
inductive Warning
  /-- Resolvers passed for a field that exists with another type. -/
  | fieldTypeMismatch (typeName fieldName fieldTypeName originalTypeName : String)
  /-- Resolvers passed for a type that does not exist in the schema. -/
  | typeNotFound (typeName : String)
  deriving DecidableEq, Repr

/-- The two sorts of JavaScript value that `createResolvers` compares. -/
inductive JSValue
  | string (s : String)
  | typeObject (text : String)
  deriving DecidableEq, Repr

/-- The operator `===`: a string and an object are never equal. -/
def JSValue.strictEquals : JSValue → JSValue → Bool
  | .string a, .string b => a == b
  | .typeObject a, .typeObject b => a == b
  | _, _ => false

/-- Truthiness of `fieldTypeName`: `undefined` and the empty string are falsy. -/
def truthyString : Option String → Bool
  | some s => s != ""
  | none => false

/-- The method `getFieldType`: the GraphQL type object of the field. -/
def TypeComposer.getFieldType (tc : TypeComposer) (fieldName : String) : Option JSValue :=
  match tc.fields.get fieldName with
  | some fc => fc.type.map (fun t => JSValue.typeObject t.resolvedText)
  | none => none

/-- The state of the overlay: the registry and the warnings reported so far. -/
structure OverlayState where
  schemaComposer : SchemaComposer
  warnings : List Warning
  deriving DecidableEq, Repr

/-- The comparison `tc.getFieldType(fieldName) === fieldConfig.type.toString()`,
evaluated only when the patch has a type. -/
def fieldTypeEquals (tc : TypeComposer) (fieldName : String) (fieldConfig : FieldConfig) : Bool :=
  match tc.getFieldType fieldName, fieldConfig.type with
  | some fieldType, some t => fieldType.strictEquals (.string t.toString)
  | _, _ => false

/-- The object `newConfig` that `createResolvers` builds from a patch: the type and
the arguments when the patch has them, and the patch's `resolve` wrapped in a
function that passes `originalResolver || defaultFieldResolver` along in `info`. -/
def newConfig (fieldConfig : FieldConfig) (originalResolver : Option ResolveFn) : FieldConfig :=
  { type := fieldConfig.type.filter TypeDef.truthy,
    args := fieldConfig.args,
    resolve := fieldConfig.resolve.map (fun resolve =>
      ResolveFn.overlay resolve (originalResolver.getD .defaultFieldResolver)) }

/-- The body of the inner loop of `createResolvers`: one field of one type. The
lookup of the field stands for `hasField` followed by `getFieldConfig`. -/
def createResolversField (typeName : String) (fields : Obj FieldConfig)
    (st : TypeComposer × List Warning) (fieldName : String) :
    Result (TypeComposer × List Warning) :=
  let tc := st.1
  match fields.get fieldName with
  | none => (st, none)
  | some fieldConfig =>
    match tc.fields.get fieldName with
    | none => ((tc.addFields [(fieldName, fieldConfig)], st.2), none)
    | some originalFieldConfig =>
      match originalFieldConfig.type with
      | none => (st, some (.typeError "Cannot read property toString of undefined"))
      | some originalType =>
        let originalTypeName := originalType.resolvedText
        let originalResolver := originalFieldConfig.resolve
        let fieldTypeName := fieldConfig.type.map TypeDef.toString
        if !truthyString fieldTypeName
            || fieldTypeEquals tc fieldName fieldConfig
            || tc.isThirdPartyType then
          ((tc.extendField fieldName (newConfig fieldConfig originalResolver), st.2), none)
        else if truthyString fieldTypeName then
          ((tc, st.2 ++ [.fieldTypeMismatch typeName fieldName
            (fieldTypeName.getD "") originalTypeName]), none)
        else (st, none)

/-- Embedding of the function `createResolvers` given to plugins. -/
def createResolvers (resolvers : Obj (Obj FieldConfig)) (st : OverlayState) :
    Result OverlayState :=
  forEach (fun st typeName =>
    let fields := (resolvers.get typeName).getD []
    if st.schemaComposer.has typeName then
      match st.schemaComposer.getTC typeName with
      | .error e => (st, some e)
      | .ok tc =>
        match forEach (createResolversField typeName fields) (Obj.keys fields)
            (tc, st.warnings) with
        | ((tc1, warnings), err) =>
          ({ schemaComposer := st.schemaComposer.set typeName tc1, warnings := warnings }, err)
    else
      ({ st with warnings := st.warnings ++ [.typeNotFound typeName] }, none))
    (Obj.keys resolvers) st

/-! ## Example data -/

/-- A stand-in for the name grammar of `assertValidName`: a letter or underscore
followed by letters, digits and underscores. -/
def exampleAssertValidName (name : String) : Except Error Unit :=
  match name.data with
  | [] => .error (.invalidName name)
  | c :: cs =>
    if (c.isAlpha || c = '_') && cs.all (fun d => d.isAlphanum || d = '_') then .ok ()
    else .error (.invalidName name)

/-- A parser stand-in that knows no type definitions: every text is a parse failure. -/
def exampleParseTypeDefs (source : String) : Except Error (List TypeComposer) :=
  .error (.parsingError source)

/-- Characters of `exampleCamelCase`: blanks are dropped and the next letter is capitalised. -/
def exampleCamelCaseChars : List Char → Bool → List Char
  | [], _ => []
  | c :: cs, upper =>
    if c = ' ' then exampleCamelCaseChars cs true
    else (if upper then c.toUpper else c) :: exampleCamelCaseChars cs false

/-- A stand-in for `_.camelCase` on the strings of the examples (one or two words of
letters): the first letter in lower case, blanks dropped, the next word capitalised. -/
def exampleCamelCase (s : String) : String :=
  match s.data with
  | [] => ""
  | c :: cs => String.mk (c.toLower :: exampleCamelCaseChars cs false)

/-- A node store over a list of nodes. -/
def NodeStore.ofList (nodes : List Node) : NodeStore :=
  { getNodesByType := fun typeName =>
      nodes.filter (fun n => decide (n.internal = some { type := typeName })),
    getNode := fun id => nodes.find? (fun n => decide (n.id = id)) }

/-- Two `Person` nodes; the first lists two `Pet` children whose parent it is. -/
def exampleNodes : List Node :=
  [ { id := "p1", parent := none, children := some ["a", "b"], internal := some { type := "Person" } },
    { id := "p2", parent := none, children := some [], internal := some { type := "Person" } },
    { id := "a", parent := some "p1", children := some [], internal := some { type := "Pet" } },
    { id := "b", parent := some "p1", children := some [], internal := some { type := "Pet" } } ]

/-- Two `Person` nodes that list one `Pet` child each; both children have `parent: null`. -/
def exampleOrphanNodes : List Node :=
  [ { id := "p1", parent := none, children := some ["a"], internal := some { type := "Person" } },
    { id := "p2", parent := none, children := some ["b"], internal := some { type := "Person" } },
    { id := "a", parent := none, children := some [], internal := some { type := "Pet" } },
    { id := "b", parent := none, children := some [], internal := some { type := "Pet" } } ]

/-- An object type `Person` that implements `Node`. -/
def examplePerson : TypeComposer :=
  { TypeComposer.create .TypeComposer "Person" with interfaces := ["Node"] }

/-- An object type `Pet` that implements `Node`. -/
def examplePet : TypeComposer :=
  { TypeComposer.create .TypeComposer "Pet" with interfaces := ["Node"] }

/-- A type literally named `Node`. -/
def exampleNodeType : TypeComposer := TypeComposer.create .TypeComposer "Node"

/-- The empty registry. -/
def emptySchemaComposer : SchemaComposer := { types := [], schemaMustHaveTypes := [] }

/-- A field of type `String` without arguments or resolver. -/
def exampleStringField : FieldConfig :=
  { type := some (.object "String"), args := none, resolve := none }

/-- An object type of `exampleForeignSchema`. -/
def exampleForeignUser : TypeComposer :=
  { TypeComposer.create .TypeComposer "GitHub_User" with fields := [("login", exampleStringField)] }

/-- The type `Person` with a field `name` of type `String`. -/
def examplePersonWithName : TypeComposer :=
  { examplePerson with fields := [("name", exampleStringField)] }

/-- A registry with the local type `Person` and the third-party type `GitHub_User`. -/
def exampleOverlayState : OverlayState :=
  { schemaComposer :=
      { types := [("Person", examplePersonWithName),
                  ("GitHub_User", markThirdParty exampleForeignUser)],
        schemaMustHaveTypes := [] },
    warnings := [] }

/-- A patch that declares the type `String` and a resolver. -/
def exampleSameType : FieldConfig :=
  { type := some (.name "String"), args := none, resolve := some (.external 1) }

/-- A patch that declares only a resolver. -/
def exampleResolverOnly : FieldConfig :=
  { type := none, args := none, resolve := some (.external 1) }

/-- Resolve functions of the examples: each returns its own name and the keys of `info`. -/
def examplePrim (fn : ResolveFn) (_source _args _context : String) (info : Obj InfoValue) :
    String :=
  (match fn with
    | .defaultFieldResolver => "default"
    | .external _ => "external"
    | _ => "other") ++ ":" ++ String.intercalate "," (Obj.keys info)

/-- Identity fields of the examples, standing for the fields of the `Node` interface. -/
def exampleNodeInterfaceFields : Obj FieldConfig :=
  [("id", { type := some (.name "ID!"), args := none, resolve := none }),
   ("parent", { type := some (.name "Node"), args := none, resolve := none }),
   ("children", { type := some (.name "[Node!]!"), args := none, resolve := none }),
   ("internal", { type := some (.name "Internal!"), args := none, resolve := none })]

/-- A filter synthesizer: one operator input per field of the type. -/
def exampleGetFilterInput (typeName : String) (fields : Obj FieldConfig) : InputTypeComposer :=
  { typeName := typeName ++ "FilterInput",
    fields := (Obj.keys fields).map (fun fieldName => (fieldName, "QueryOperatorInput")) }

/-- A sort synthesizer: one sort order per field of the type. -/
def exampleGetSortInput (typeName : String) (fields : Obj FieldConfig) : InputTypeComposer :=
  { typeName := typeName ++ "SortInput",
    fields := (Obj.keys fields).map (fun fieldName => (fieldName, "SortOrderEnum")) }

/-- A pagination synthesizer: the connection type of the type. -/
def exampleGetPagination (typeName : String) (_fields : Obj FieldConfig) : TypeDef :=
  .typeComposer (typeName ++ "Connection")

/-- A registry with the node types `Person` and `Pet`. -/
def exampleRegistry : SchemaComposer :=
  { types := [("Person", examplePerson), ("Pet", examplePet)], schemaMustHaveTypes := [] }

/-! ## Lemmas on dictionaries and lodash helpers -/

theorem Obj.get_set {α : Type} (o : Obj α) (k : String) (v : α) (k' : String) :
    Obj.get (Obj.set o k v) k' = if k = k' then some v else Obj.get o k' := by
  induction o with
  | nil => simp [Obj.set, Obj.get]
  | cons hd tl ih =>
    obtain ⟨a, b⟩ := hd
    by_cases h : a = k
    · subst h
      by_cases h2 : a = k' <;> simp [Obj.set, Obj.get, h2]
    · by_cases h2 : a = k'
      · subst h2
        simp [Obj.set, Obj.get, h, Ne.symm h]
      · simp [Obj.set, Obj.get, h, h2, ih]

theorem Obj.get_set_self {α : Type} (o : Obj α) (k : String) (v : α) :
    Obj.get (Obj.set o k v) k = some v := by
  rw [Obj.get_set]; simp

theorem Obj.get_set_ne {α : Type} (o : Obj α) (k : String) (v : α) (k' : String) (h : k ≠ k') :
    Obj.get (Obj.set o k v) k' = Obj.get o k' := by
  rw [Obj.get_set]; simp [h]

theorem Obj.set_eq_self {α : Type} (o : Obj α) (k : String) (v : α)
    (h : Obj.get o k = some v) : Obj.set o k v = o := by
  induction o with
  | nil => simp [Obj.get] at h
  | cons hd tl ih =>
    obtain ⟨a, b⟩ := hd
    by_cases h1 : a = k
    · subst h1
      simp [Obj.get] at h
      simp [Obj.set, h]
    · simp [Obj.get, h1] at h
      simp [Obj.set, h1, ih h]

theorem Obj.get_eq_none_iff {α : Type} (o : Obj α) (k : String) :
    Obj.get o k = none ↔ k ∉ Obj.keys o := by
  induction o with
  | nil => simp [Obj.get, Obj.keys]
  | cons hd tl ih =>
    obtain ⟨a, b⟩ := hd
    by_cases h1 : a = k
    · subst h1; simp [Obj.get, Obj.keys]
    · simp only [Obj.get, h1, if_false, ih, Obj.keys, List.map_cons, List.mem_cons, not_or]
      constructor
      · intro h; exact ⟨Ne.symm h1, h⟩
      · intro h; exact h.2

theorem Obj.mem_of_get {α : Type} (o : Obj α) (k : String) (v : α)
    (h : Obj.get o k = some v) : (k, v) ∈ o := by
  induction o with
  | nil => simp [Obj.get] at h
  | cons hd tl ih =>
    obtain ⟨a, b⟩ := hd
    by_cases h1 : a = k
    · subst h1
      simp [Obj.get] at h
      simp [h]
    · simp [Obj.get, h1] at h
      exact List.mem_cons_of_mem _ (ih h)

theorem Obj.get_of_mem {α : Type} (o : Obj α) (k : String) (v : α)
    (hnd : (Obj.keys o).Nodup) (h : (k, v) ∈ o) : Obj.get o k = some v := by
  induction o with
  | nil => simp at h
  | cons hd tl ih =>
    obtain ⟨a, b⟩ := hd
    simp only [Obj.keys, List.map_cons, List.nodup_cons] at hnd
    rcases List.mem_cons.1 h with h1 | h1
    · injection h1 with h2 h3
      subst h2; subst h3
      simp [Obj.get]
    · have hk : k ∈ tl.map Prod.fst := List.mem_map.2 ⟨(k, v), h1, rfl⟩
      have hne : a ≠ k := fun e => hnd.1 (e ▸ hk)
      simp only [Obj.get, hne, if_false]
      exact ih hnd.2 h1

theorem Obj.keys_set {α : Type} (o : Obj α) (k : String) (v : α) :
    Obj.keys (Obj.set o k v) = if k ∈ Obj.keys o then Obj.keys o else Obj.keys o ++ [k] := by
  induction o with
  | nil => simp [Obj.set, Obj.keys]
  | cons hd tl ih =>
    obtain ⟨a, b⟩ := hd
    by_cases h1 : a = k
    · subst h1; simp [Obj.set, Obj.keys]
    · have h2 : ¬ k = a := Ne.symm h1
      simp only [Obj.keys] at ih
      by_cases h3 : k ∈ tl.map Prod.fst
      · simp [Obj.set, Obj.keys, h1, h2, h3, ih]
      · simp [Obj.set, Obj.keys, h1, h2, h3, ih]

theorem Obj.nodup_keys_set {α : Type} (o : Obj α) (k : String) (v : α)
    (h : (Obj.keys o).Nodup) : (Obj.keys (Obj.set o k v)).Nodup := by
  rw [Obj.keys_set]
  by_cases h1 : k ∈ Obj.keys o
  · simp [h1, h]
  · simp only [h1, if_false]
    exact List.Nodup.append h (List.nodup_singleton k) (by simpa using h1)

theorem nonEmpty?_append_singleton {α : Type} (l : List α) (x : α) :
    nonEmpty? (l ++ [x]) = some (l ++ [x]) := by
  cases l <;> simp [nonEmpty?]

theorem nonEmpty?_eq_some {α : Type} (l g : List α) :
    nonEmpty? l = some g ↔ l = g ∧ g ≠ [] := by
  cases l with
  | nil =>
    simp only [nonEmpty?, List.isEmpty_nil, if_true]
    constructor
    · intro h; cases h
    · rintro ⟨h1, h2⟩; exact absurd h1.symm h2
  | cons a l =>
    simp only [nonEmpty?, List.isEmpty_cons, Bool.false_eq_true, if_false, Option.some.injEq]
    constructor
    · intro h; subst h; exact ⟨rfl, by simp⟩
    · rintro ⟨h1, _⟩; exact h1

theorem nonEmpty?_eq_none {α : Type} (l : List α) :
    nonEmpty? l = none ↔ l = [] := by
  cases l <;> simp [nonEmpty?]

/-- One step of `groupBy` keeps every group equal to the filtered prefix. -/
theorem groupBy_step_get {α : Type} (f : α → String) (acc : Obj (List α)) (ys : List α) (x : α)
    (h : ∀ k, Obj.get acc k = nonEmpty? (ys.filter (fun y => decide (f y = k))))
    (k : String) :
    Obj.get (match Obj.get acc (f x) with
      | some group => Obj.set acc (f x) (group ++ [x])
      | none => Obj.set acc (f x) [x]) k =
      nonEmpty? ((ys ++ [x]).filter (fun y => decide (f y = k))) := by
  have hx := h (f x)
  by_cases hk : f x = k
  · subst hk
    have hfil : (ys ++ [x]).filter (fun y => decide (f y = f x)) =
        ys.filter (fun y => decide (f y = f x)) ++ [x] := by
      simp [List.filter_append]
    rw [hfil, nonEmpty?_append_singleton]
    cases hg : Obj.get acc (f x) with
    | none =>
      rw [hg] at hx
      have he := (nonEmpty?_eq_none _).1 hx.symm
      simp [Obj.get_set, he]
    | some g =>
      rw [hg] at hx
      have he := ((nonEmpty?_eq_some _ _).1 hx.symm).1
      simp [Obj.get_set, he]
  · have hfil : (ys ++ [x]).filter (fun y => decide (f y = k)) =
        ys.filter (fun y => decide (f y = k)) := by
      simp [List.filter_append, hk]
    rw [hfil, ← h k]
    cases hg : Obj.get acc (f x) <;> simp [Obj.get_set, hk]

theorem groupBy_foldl_get {α : Type} (f : α → String) (xs : List α) :
    ∀ (acc : Obj (List α)) (ys : List α),
    (∀ k, Obj.get acc k = nonEmpty? (ys.filter (fun y => decide (f y = k)))) →
    ∀ k, Obj.get (xs.foldl (fun result value =>
        match result.get (f value) with
        | some group => result.set (f value) (group ++ [value])
        | none => result.set (f value) [value]) acc) k =
      nonEmpty? ((ys ++ xs).filter (fun y => decide (f y = k))) := by
  induction xs with
  | nil => intro acc ys h k; simpa using h k
  | cons x xs ih =>
    intro acc ys h k
    rw [List.foldl_cons]
    have := ih _ (ys ++ [x]) (groupBy_step_get f acc ys x h) k
    simpa using this

/-- The group that `groupBy` holds under a key: the elements with that key, in order. -/
theorem groupBy_get {α : Type} (f : α → String) (xs : List α) (k : String) :
    Obj.get (groupBy f xs) k = nonEmpty? (xs.filter (fun y => decide (f y = k))) := by
  have := groupBy_foldl_get f xs [] [] (by intro k; simp [Obj.get, nonEmpty?]) k
  simpa [groupBy] using this

theorem groupBy_nodup_keys {α : Type} (f : α → String) (xs : List α) :
    (Obj.keys (groupBy f xs)).Nodup := by
  unfold groupBy
  suffices h : ∀ acc : Obj (List α), (Obj.keys acc).Nodup →
      (Obj.keys (xs.foldl (fun result value =>
        match result.get (f value) with
        | some group => result.set (f value) (group ++ [value])
        | none => result.set (f value) [value]) acc)).Nodup from h [] (by simp [Obj.keys])
  induction xs with
  | nil => intro acc h; simpa using h
  | cons x xs ih =>
    intro acc h
    rw [List.foldl_cons]
    apply ih
    cases Obj.get acc (f x) <;> exact Obj.nodup_keys_set _ _ _ h

/-- The keys of `groupBy` are the keys that occur in the collection. -/
theorem mem_keys_groupBy {α : Type} (f : α → String) (xs : List α) (k : String) :
    k ∈ Obj.keys (groupBy f xs) ↔ k ∈ xs.map f := by
  have h1 := Obj.get_eq_none_iff (groupBy f xs) k
  rw [groupBy_get, nonEmpty?_eq_none] at h1
  rw [← not_iff_not, ← h1, List.filter_eq_nil_iff]
  simp

/-- The groups of `groupBy` are non-empty filtered sublists of the collection. -/
theorem mem_values_groupBy {α : Type} (f : α → String) (xs : List α) (g : List α) :
    g ∈ Obj.values (groupBy f xs) ↔
      ∃ k, g = xs.filter (fun y => decide (f y = k)) ∧ g ≠ [] := by
  constructor
  · intro h
    obtain ⟨⟨k, g1⟩, hmem, hg⟩ := List.mem_map.1 h
    simp only at hg
    subst hg
    have := Obj.get_of_mem _ k g1 (groupBy_nodup_keys f xs) hmem
    rw [groupBy_get, nonEmpty?_eq_some] at this
    exact ⟨k, this.1.symm, this.2⟩
  · rintro ⟨k, hg, hne⟩
    have : Obj.get (groupBy f xs) k = some g := by
      rw [groupBy_get, nonEmpty?_eq_some]; exact ⟨hg.symm, hne⟩
    exact List.mem_map.2 ⟨(k, g), Obj.mem_of_get _ _ _ this, rfl⟩

theorem maxBy_foldl {α : Type} (f : α → Nat) (xs : List α) :
    ∀ (b : α) (ys : List α), b ∈ ys → (∀ y ∈ ys, f y ≤ f b) →
    ∃ g, xs.foldl (fun result value =>
        match result with
        | none => some value
        | some best => if f value > f best then some value else some best) (some b) = some g
      ∧ g ∈ ys ++ xs ∧ ∀ y ∈ ys ++ xs, f y ≤ f g := by
  induction xs with
  | nil => intro b ys hb hmax; exact ⟨b, rfl, by simpa using hb, by simpa using hmax⟩
  | cons x xs ih =>
    intro b ys hb hmax
    rw [List.foldl_cons]
    by_cases hx : f x > f b
    · simp only [hx, if_true]
      obtain ⟨g, hg, hmem, hle⟩ := ih x (ys ++ [x]) (by simp) (by
        intro y hy
        rcases List.mem_append.1 hy with h | h
        · exact le_of_lt (lt_of_le_of_lt (hmax y h) hx)
        · simp at h; subst h; exact le_refl _)
      exact ⟨g, hg, by simpa using hmem, by simpa using hle⟩
    · simp only [hx, if_false]
      obtain ⟨g, hg, hmem, hle⟩ := ih b (ys ++ [x]) (by simp [hb]) (by
        intro y hy
        rcases List.mem_append.1 hy with h | h
        · exact hmax y h
        · simp at h; subst h; exact not_lt.1 hx)
      exact ⟨g, hg, by simpa using hmem, by simpa using hle⟩

/-- On a non-empty array `maxBy` returns an element of greatest value. -/
theorem maxBy_of_ne_nil {α : Type} (f : α → Nat) (xs : List α) (h : xs ≠ []) :
    ∃ g, maxBy f xs = some g ∧ g ∈ xs ∧ ∀ y ∈ xs, f y ≤ f g := by
  cases xs with
  | nil => exact absurd rfl h
  | cons x xs =>
    obtain ⟨g, hg, hmem, hle⟩ := maxBy_foldl f xs x [x] (by simp) (by simp)
    exact ⟨g, by simpa [maxBy] using hg, by simpa using hmem, by simpa using hle⟩

/-- Writing a sequence of entries leaves a key that none of them writes unchanged. -/
theorem Obj.get_foldl_set_of_not_mem {α β : Type} (nm : β → String) (cfg : β → α)
    (keys : List β) (x : String) (h : ∀ t ∈ keys, nm t ≠ x) (o : Obj α) :
    Obj.get (keys.foldl (fun acc t => Obj.set acc (nm t) (cfg t)) o) x = Obj.get o x := by
  induction keys generalizing o with
  | nil => rfl
  | cons t ts ih =>
    rw [List.foldl_cons, ih (fun t' ht' => h t' (List.mem_cons_of_mem _ ht'))]
    exact Obj.get_set_ne _ _ _ _ (h t (by simp))

/-- Writing a sequence of entries: a key written by exactly one of them holds its value. -/
theorem Obj.get_foldl_set_of_unique {α β : Type} (nm : β → String) (cfg : β → α)
    (keys : List β) (t : β) (ht : t ∈ keys) (h : ∀ t' ∈ keys, nm t' = nm t → t' = t)
    (o : Obj α) :
    Obj.get (keys.foldl (fun acc t => Obj.set acc (nm t) (cfg t)) o) (nm t) = some (cfg t) := by
  induction keys generalizing o with
  | nil => simp at ht
  | cons a ts ih =>
    rw [List.foldl_cons]
    by_cases hmem : t ∈ ts
    · exact ih hmem (fun t' ht' => h t' (List.mem_cons_of_mem _ ht')) _
    · have hat : a = t := by
        rcases List.mem_cons.1 ht with h1 | h1
        · exact h1.symm
        · exact absurd h1 hmem
      subst hat
      rw [Obj.get_foldl_set_of_not_mem]
      · exact Obj.get_set_self _ _ _
      · intro t' ht' heq
        have := h t' (List.mem_cons_of_mem _ ht') heq
        subst this
        exact hmem ht'

/-! ## Lemmas on loops and on the relationship fields -/

theorem forEach_append {σ α : Type} (body : σ → α → Result σ) (xs ys : List α) (s : σ) :
    forEach body (xs ++ ys) s =
      match forEach body xs s with
      | (s1, none) => forEach body ys s1
      | (s1, some e) => (s1, some e) := by
  induction xs generalizing s with
  | nil => simp [forEach]
  | cons x xs ih =>
    simp only [List.cons_append, forEach]
    rcases h : body s x with ⟨s1, _ | e⟩
    · simp [ih]
    · simp

/-- A loop whose body never throws on the elements of the list is a left fold. -/
theorem forEach_eq_foldl {σ α : Type} (body : σ → α → Result σ) (xs : List α)
    (h : ∀ x ∈ xs, ∀ s, (body s x).2 = none) (s : σ) :
    forEach body xs s = (xs.foldl (fun acc x => (body acc x).1) s, none) := by
  induction xs generalizing s with
  | nil => simp [forEach]
  | cons x xs ih =>
    have hx := h x (by simp) s
    simp only [forEach, List.foldl_cons]
    rcases hb : body s x with ⟨s1, _ | e⟩
    · simp only []
      rw [ih (fun y hy => h y (List.mem_cons_of_mem _ hy))]
    · rw [hb] at hx; simp at hx

theorem allDefined_eq_some {α : Type} (l : List (Option α)) (xs : List α) :
    allDefined l = some xs ↔ l = xs.map some := by
  induction l generalizing xs with
  | nil => cases xs <;> simp [allDefined]
  | cons o l ih =>
    cases o with
    | none => cases xs <;> simp [allDefined]
    | some a =>
      cases xs with
      | nil => simp [allDefined]
      | cons b xs =>
        simp only [allDefined, Option.map_eq_some', List.map_cons, List.cons.injEq,
          Option.some.injEq]
        constructor
        · rintro ⟨ys, h1, h2, h3⟩
          subst h2; subst h3
          exact ⟨rfl, (ih ys).1 h1⟩
        · rintro ⟨h1, h2⟩
          exact ⟨xs, (ih xs).2 h2, h1, rfl⟩

/-- The loop body for a key of the grouping: the group of greatest size exists and
decides which single field is added. -/
theorem addConvenienceChildrenField_of_mem (camelCase : String → String) (children : List Node)
    (typeName : String) (hk : typeName ∈ Obj.keys (groupBy internalTypeKey children)) :
    ∃ typeChildren group,
      (groupBy internalTypeKey children).get typeName = some typeChildren
      ∧ typeChildren = children.filter (fun c => decide (internalTypeKey c = typeName))
      ∧ typeChildren ≠ []
      ∧ Obj.values (groupBy parentKey typeChildren) ≠ []
      ∧ maxBy List.length (Obj.values (groupBy parentKey typeChildren)) = some group
      ∧ group ∈ Obj.values (groupBy parentKey typeChildren)
      ∧ (∀ g ∈ Obj.values (groupBy parentKey typeChildren), g.length ≤ group.length)
      ∧ 1 ≤ group.length
      ∧ ∀ tc, addConvenienceChildrenField camelCase (groupBy internalTypeKey children) tc typeName =
          (tc.addFields (if 1 < group.length then createChildrenField camelCase typeName
            else createChildField camelCase typeName), none) := by
  have hget : (groupBy internalTypeKey children).get typeName ≠ none := by
    intro h; exact ((Obj.get_eq_none_iff _ _).1 h) hk
  rw [groupBy_get] at hget
  have hne : children.filter (fun c => decide (internalTypeKey c = typeName)) ≠ [] := by
    intro h; exact hget ((nonEmpty?_eq_none _).2 h)
  have hget2 : (groupBy internalTypeKey children).get typeName =
      some (children.filter (fun c => decide (internalTypeKey c = typeName))) := by
    rw [groupBy_get, nonEmpty?_eq_some]; exact ⟨rfl, hne⟩
  set typeChildren := children.filter (fun c => decide (internalTypeKey c = typeName)) with htc
  obtain ⟨c, hc⟩ := List.exists_mem_of_ne_nil _ hne
  have hgroups : Obj.values (groupBy parentKey typeChildren) ≠ [] := by
    have hmem : typeChildren.filter (fun y => decide (parentKey y = parentKey c)) ∈
        Obj.values (groupBy parentKey typeChildren) := by
      rw [mem_values_groupBy]
      refine ⟨parentKey c, rfl, ?_⟩
      intro h
      have : c ∈ typeChildren.filter (fun y => decide (parentKey y = parentKey c)) := by
        simp [List.mem_filter, hc]
      rw [h] at this; simp at this
    exact List.ne_nil_of_mem hmem
  obtain ⟨group, hmax, hmem, hle⟩ := maxBy_of_ne_nil List.length _ hgroups
  have hpos : 1 ≤ group.length := by
    obtain ⟨k, -, hne2⟩ := (mem_values_groupBy _ _ _).1 hmem
    exact List.length_pos.2 hne2
  refine ⟨typeChildren, group, hget2, rfl, hne, hgroups, hmax, hmem, hle, hpos, ?_⟩
  intro tc
  simp only [addConvenienceChildrenField, hget2, Option.getD_some, hmax]
  by_cases h1 : 1 < group.length
  · simp [h1]
  · simp [h1]

/-- The greatest group has more than one element exactly when two children of the
type share a parent key. -/
theorem one_lt_maxChildCount_iff (children : List Node) (T : String) (group : List Node)
    (hmem : group ∈ Obj.values (groupBy parentKey
      (children.filter (fun c => decide (internalTypeKey c = T)))))
    (hle : ∀ g ∈ Obj.values (groupBy parentKey
      (children.filter (fun c => decide (internalTypeKey c = T)))), g.length ≤ group.length) :
    1 < group.length ↔
      ∃ k, 2 ≤ (children.filter
        (fun c => decide (internalTypeKey c = T ∧ parentKey c = k))).length := by
  have hff : ∀ k, children.filter (fun c => decide (internalTypeKey c = T ∧ parentKey c = k)) =
      (children.filter (fun c => decide (internalTypeKey c = T))).filter
        (fun y => decide (parentKey y = k)) := by
    intro k
    rw [List.filter_filter]
    congr 1
    funext c
    by_cases h1 : internalTypeKey c = T <;> by_cases h2 : parentKey c = k <;> simp [h1, h2]
  constructor
  · intro h
    obtain ⟨k, hk, -⟩ := (mem_values_groupBy _ _ _).1 hmem
    exact ⟨k, by rw [hff k, ← hk]; exact h⟩
  · rintro ⟨k, hk⟩
    rw [hff k] at hk
    have hne : (children.filter (fun c => decide (internalTypeKey c = T))).filter
        (fun y => decide (parentKey y = k)) ≠ [] := by
      intro h; rw [h] at hk; simp at hk
    have := hle _ ((mem_values_groupBy _ _ _).2 ⟨k, rfl, hne⟩)
    omega

/-- The fields of the type after a loop that writes one entry per key. -/
theorem fields_foldl_eq (body : TypeComposer → String → Result TypeComposer)
    (nm : String → String) (cfg : String → FieldConfig) (keys : List String)
    (h : ∀ T ∈ keys, ∀ tc, (body tc T).1.fields = Obj.set tc.fields (nm T) (cfg T))
    (tc : TypeComposer) :
    (keys.foldl (fun acc T => (body acc T).1) tc).fields =
      keys.foldl (fun acc T => Obj.set acc (nm T) (cfg T)) tc.fields := by
  induction keys generalizing tc with
  | nil => rfl
  | cons T Ts ih =>
    rw [List.foldl_cons, List.foldl_cons,
      ih (fun T' hT' => h T' (List.mem_cons_of_mem _ hT')), h T (by simp)]

/-- The field map after `addConvenienceChildrenFields`, when every child resolves:
one entry written per child type, plural when two children share a parent key
(the decidable predicate `P` stands for that condition). -/
theorem addConvenienceChildrenFields_fields (camelCase : String → String)
    (nodeStore : NodeStore) (typeComposer : TypeComposer) (children : List Node)
    (hch : allDefined (childNodes nodeStore (nodeStore.getNodesByType typeComposer.name))
      = some children)
    (P : String → Prop) [DecidablePred P]
    (hP : ∀ T, P T ↔ ∃ k, 2 ≤ (children.filter
      (fun c => decide (internalTypeKey c = T ∧ parentKey c = k))).length) :
    (addConvenienceChildrenFields camelCase nodeStore typeComposer).2 = none ∧
    (addConvenienceChildrenFields camelCase nodeStore typeComposer).1.fields =
      (Obj.keys (groupBy internalTypeKey children)).foldl (fun acc T =>
        Obj.set acc
          (if P T then camelCase ("children " ++ T) else camelCase ("child " ++ T))
          (if P T then childrenFieldConfig T else childFieldConfig T)) typeComposer.fields := by
  have hgroup : groupChildNodesByType nodeStore (nodeStore.getNodesByType typeComposer.name)
      = .ok (groupBy internalTypeKey children) := by
    simp [groupChildNodesByType, hch]
  have hstep : ∀ T ∈ Obj.keys (groupBy internalTypeKey children), ∀ tc,
      (addConvenienceChildrenField camelCase (groupBy internalTypeKey children) tc T).2 = none ∧
      (addConvenienceChildrenField camelCase (groupBy internalTypeKey children) tc T).1.fields =
        Obj.set tc.fields
          (if P T then camelCase ("children " ++ T) else camelCase ("child " ++ T))
          (if P T then childrenFieldConfig T else childFieldConfig T) := by
    intro T hT tc
    obtain ⟨typeChildren, group, _, h2, _, _, _, h6, h7, _, h9⟩ :=
      addConvenienceChildrenField_of_mem camelCase children T hT
    subst h2
    have hiff := (one_lt_maxChildCount_iff children T group h6 h7).trans (hP T).symm
    rw [h9 tc]
    refine ⟨rfl, ?_⟩
    by_cases hp : 1 < group.length
    · have hq := hiff.1 hp
      rw [if_pos hp, if_pos hq, if_pos hq]
      simp [TypeComposer.addFields, createChildrenField, Obj.assign]
    · have hq : ¬ P T := fun h => hp (hiff.2 h)
      rw [if_neg hp, if_neg hq, if_neg hq]
      simp [TypeComposer.addFields, createChildField, Obj.assign]
  simp only [addConvenienceChildrenFields, hgroup]
  rw [forEach_eq_foldl _ _ (fun T hT tc => (hstep T hT tc).1)]
  refine ⟨rfl, ?_⟩
  exact fields_foldl_eq _ _ _ _ (fun T hT tc => (hstep T hT tc).2) typeComposer

/-- Children listed by one node, when each has that node as parent: those with a
given parent key and type are all of that type, or none. -/
theorem length_filter_children_of_node (nodeStore : NodeStore) (T : String) (n : Node)
    (hc : ∀ id ∈ n.children.getD [], ∀ c, nodeStore.getNode id = some c → c.parent = some n.id)
    (k : String) :
    (((n.children.getD []).map nodeStore.getNode).filter (fun o =>
        decide (o.map internalTypeKey = some T ∧ o.map parentKey = some k))).length =
      if n.id = k then
        ((n.children.getD []).filter (fun id =>
          decide ((nodeStore.getNode id).map internalTypeKey = some T))).length
      else 0 := by
  rw [List.filter_map, List.length_map]
  by_cases hk : n.id = k
  · rw [if_pos hk]
    congr 1
    apply List.filter_congr
    intro id hid
    cases hg : nodeStore.getNode id with
    | none => simp [hg]
    | some c =>
      have hp := hc id hid c hg
      simp [hg, parentKey, hp, hk]
  · rw [if_neg hk, List.length_eq_zero, List.filter_eq_nil_iff]
    intro id hid
    cases hg : nodeStore.getNode id with
    | none => simp [hg]
    | some c =>
      have hp := hc id hid c hg
      simp [hg, parentKey, hp, hk]

theorem length_filter_childNodes_of_not_mem (nodeStore : NodeStore) (T : String)
    (nodes : List Node)
    (hc : ∀ n ∈ nodes, ∀ id ∈ n.children.getD [], ∀ c,
      nodeStore.getNode id = some c → c.parent = some n.id)
    (k : String) (hk : k ∉ nodes.map Node.id) :
    ((childNodes nodeStore nodes).filter (fun o =>
        decide (o.map internalTypeKey = some T ∧ o.map parentKey = some k))).length = 0 := by
  induction nodes with
  | nil => simp [childNodes]
  | cons m rest ih =>
    simp only [childNodes, List.flatMap_cons, List.filter_append, List.length_append]
    have h1 := length_filter_children_of_node nodeStore T m (hc m (by simp)) k
    have hne : m.id ≠ k := fun e => hk (by simp [e.symm])
    rw [if_neg hne] at h1
    have h2 := ih (fun n hn => hc n (List.mem_cons_of_mem _ hn))
      (fun h => hk (by simp only [List.map_cons]; exact List.mem_cons_of_mem _ h))
    simp only [childNodes] at h2
    omega

theorem length_filter_childNodes_of_mem (nodeStore : NodeStore) (T : String)
    (nodes : List Node) (hnd : (nodes.map Node.id).Nodup)
    (hc : ∀ n ∈ nodes, ∀ id ∈ n.children.getD [], ∀ c,
      nodeStore.getNode id = some c → c.parent = some n.id)
    (n : Node) (hn : n ∈ nodes) :
    ((childNodes nodeStore nodes).filter (fun o =>
        decide (o.map internalTypeKey = some T ∧ o.map parentKey = some n.id))).length =
      ((n.children.getD []).filter (fun id =>
          decide ((nodeStore.getNode id).map internalTypeKey = some T))).length := by
  induction nodes with
  | nil => simp at hn
  | cons m rest ih =>
    simp only [List.map_cons, List.nodup_cons] at hnd
    have hcr : ∀ n ∈ rest, ∀ id ∈ n.children.getD [], ∀ c,
        nodeStore.getNode id = some c → c.parent = some n.id :=
      fun n hn => hc n (List.mem_cons_of_mem _ hn)
    have h1 := length_filter_children_of_node nodeStore T m (hc m (by simp)) n.id
    have hsplit : ((childNodes nodeStore (m :: rest)).filter (fun o =>
        decide (o.map internalTypeKey = some T ∧ o.map parentKey = some n.id))).length =
        (((m.children.getD []).map nodeStore.getNode).filter (fun o =>
          decide (o.map internalTypeKey = some T ∧ o.map parentKey = some n.id))).length +
        ((childNodes nodeStore rest).filter (fun o =>
          decide (o.map internalTypeKey = some T ∧ o.map parentKey = some n.id))).length := by
      simp only [childNodes, List.flatMap_cons, List.filter_append, List.length_append]
    rw [hsplit]
    by_cases hmem : n ∈ rest
    · have hne : m.id ≠ n.id := fun e => hnd.1 (e ▸ List.mem_map.2 ⟨n, hmem, rfl⟩)
      rw [if_neg hne] at h1
      rw [h1, ih hnd.2 hcr hmem]
      omega
    · have hnm : n = m := by
        rcases List.mem_cons.1 hn with h | h
        · exact h
        · exact absurd h hmem
      subst hnm
      rw [if_pos rfl] at h1
      rw [h1, length_filter_childNodes_of_not_mem nodeStore T rest hcr n.id hnd.1]
      omega

/-- When each listed child has the listing node as parent and the nodes have distinct
ids: two children of type `T` share a parent key exactly when one node lists two
children of type `T`. -/
theorem exists_siblings_iff_of_consistent (nodeStore : NodeStore) (T : String)
    (nodes : List Node) (children : List Node)
    (hch : childNodes nodeStore nodes = children.map some)
    (hnd : (nodes.map Node.id).Nodup)
    (hc : ∀ n ∈ nodes, ∀ id ∈ n.children.getD [], ∀ c,
      nodeStore.getNode id = some c → c.parent = some n.id) :
    (∃ k, 2 ≤ (children.filter
        (fun c => decide (internalTypeKey c = T ∧ parentKey c = k))).length) ↔
      ∃ n ∈ nodes, 2 ≤ ((n.children.getD []).filter (fun id =>
          decide ((nodeStore.getNode id).map internalTypeKey = some T))).length := by
  have hbridge : ∀ k, (children.filter
      (fun c => decide (internalTypeKey c = T ∧ parentKey c = k))).length =
      ((childNodes nodeStore nodes).filter (fun o =>
        decide (o.map internalTypeKey = some T ∧ o.map parentKey = some k))).length := by
    intro k
    rw [hch, List.filter_map, List.length_map]
    congr 1
    apply List.filter_congr
    intro c _
    simp
  constructor
  · rintro ⟨k, hk⟩
    rw [hbridge k] at hk
    by_cases hmem : k ∈ nodes.map Node.id
    · obtain ⟨n, hn, rfl⟩ := List.mem_map.1 hmem
      rw [length_filter_childNodes_of_mem nodeStore T nodes hnd hc n hn] at hk
      exact ⟨n, hn, hk⟩
    · rw [length_filter_childNodes_of_not_mem nodeStore T nodes hc k hmem] at hk
      omega
  · rintro ⟨n, hn, h2⟩
    refine ⟨n.id, ?_⟩
    rw [hbridge n.id, length_filter_childNodes_of_mem nodeStore T nodes hnd hc n hn]
    exact h2

/-- The entries for the child type `T` after the loop over the child types, when no
other child type yields one of the two field names of `T`. -/
theorem get_relationship_fields (camelCase : String → String) (keys : List String)
    (P : String → Prop) [DecidablePred P] (T : String) (o : Obj FieldConfig)
    (hne : camelCase ("child " ++ T) ≠ camelCase ("children " ++ T))
    (hother : ∀ T' ∈ keys, T' ≠ T →
      camelCase ("child " ++ T') ≠ camelCase ("child " ++ T)
      ∧ camelCase ("child " ++ T') ≠ camelCase ("children " ++ T)
      ∧ camelCase ("children " ++ T') ≠ camelCase ("child " ++ T)
      ∧ camelCase ("children " ++ T') ≠ camelCase ("children " ++ T)) :
    (T ∈ keys → P T →
      Obj.get (keys.foldl (fun acc T' => Obj.set acc
          (if P T' then camelCase ("children " ++ T') else camelCase ("child " ++ T'))
          (if P T' then childrenFieldConfig T' else childFieldConfig T')) o)
        (camelCase ("children " ++ T)) = some (childrenFieldConfig T)
      ∧ Obj.get (keys.foldl (fun acc T' => Obj.set acc
          (if P T' then camelCase ("children " ++ T') else camelCase ("child " ++ T'))
          (if P T' then childrenFieldConfig T' else childFieldConfig T')) o)
        (camelCase ("child " ++ T)) = Obj.get o (camelCase ("child " ++ T)))
    ∧ (T ∈ keys → ¬ P T →
      Obj.get (keys.foldl (fun acc T' => Obj.set acc
          (if P T' then camelCase ("children " ++ T') else camelCase ("child " ++ T'))
          (if P T' then childrenFieldConfig T' else childFieldConfig T')) o)
        (camelCase ("child " ++ T)) = some (childFieldConfig T)
      ∧ Obj.get (keys.foldl (fun acc T' => Obj.set acc
          (if P T' then camelCase ("children " ++ T') else camelCase ("child " ++ T'))
          (if P T' then childrenFieldConfig T' else childFieldConfig T')) o)
        (camelCase ("children " ++ T)) = Obj.get o (camelCase ("children " ++ T)))
    ∧ (T ∉ keys →
      Obj.get (keys.foldl (fun acc T' => Obj.set acc
          (if P T' then camelCase ("children " ++ T') else camelCase ("child " ++ T'))
          (if P T' then childrenFieldConfig T' else childFieldConfig T')) o)
        (camelCase ("child " ++ T)) = Obj.get o (camelCase ("child " ++ T))
      ∧ Obj.get (keys.foldl (fun acc T' => Obj.set acc
          (if P T' then camelCase ("children " ++ T') else camelCase ("child " ++ T'))
          (if P T' then childrenFieldConfig T' else childFieldConfig T')) o)
        (camelCase ("children " ++ T)) = Obj.get o (camelCase ("children " ++ T))) := by
  have hnm : ∀ T' ∈ keys, T' ≠ T →
      (if P T' then camelCase ("children " ++ T') else camelCase ("child " ++ T'))
        ≠ camelCase ("child " ++ T)
      ∧ (if P T' then camelCase ("children " ++ T') else camelCase ("child " ++ T'))
        ≠ camelCase ("children " ++ T) := by
    intro T' hT' hTne
    obtain ⟨h1, h2, h3, h4⟩ := hother T' hT' hTne
    by_cases hp : P T'
    · simp only [hp, if_true]; exact ⟨h3, h4⟩
    · simp only [hp, if_false]; exact ⟨h1, h2⟩
  refine ⟨?_, ?_, ?_⟩
  · intro hT hp
    constructor
    · have h := Obj.get_foldl_set_of_unique
        (fun T' => if P T' then camelCase ("children " ++ T') else camelCase ("child " ++ T'))
        (fun T' => if P T' then childrenFieldConfig T' else childFieldConfig T')
        keys T hT (by
          intro T' hT' heq
          by_contra hTne
          simp only [hp, if_true] at heq
          exact (hnm T' hT' hTne).2 heq) o
      simpa only [hp, if_true] using h
    · apply Obj.get_foldl_set_of_not_mem
        (fun T' => if P T' then camelCase ("children " ++ T') else camelCase ("child " ++ T'))
      intro T' hT'
      by_cases hTne : T' = T
      · subst hTne; simp only [hp, if_true]; exact Ne.symm hne
      · exact (hnm T' hT' hTne).1
  · intro hT hp
    constructor
    · have h := Obj.get_foldl_set_of_unique
        (fun T' => if P T' then camelCase ("children " ++ T') else camelCase ("child " ++ T'))
        (fun T' => if P T' then childrenFieldConfig T' else childFieldConfig T')
        keys T hT (by
          intro T' hT' heq
          by_contra hTne
          simp only [hp, if_false] at heq
          exact (hnm T' hT' hTne).1 heq) o
      simpa only [hp, if_false] using h
    · apply Obj.get_foldl_set_of_not_mem
        (fun T' => if P T' then camelCase ("children " ++ T') else camelCase ("child " ++ T'))
      intro T' hT'
      by_cases hTne : T' = T
      · subst hTne; simp only [hp, if_false]; exact hne
      · exact (hnm T' hT' hTne).2
  · intro hT
    constructor
    · apply Obj.get_foldl_set_of_not_mem
        (fun T' => if P T' then camelCase ("children " ++ T') else camelCase ("child " ++ T'))
      intro T' hT'
      exact (hnm T' hT' (fun e => hT (e ▸ hT'))).1
    · apply Obj.get_foldl_set_of_not_mem
        (fun T' => if P T' then camelCase ("children " ++ T') else camelCase ("child " ++ T'))
      intro T' hT'
      exact (hnm T' hT' (fun e => hT (e ▸ hT'))).2

/-- A type named `Node` is stored by `addAsComposer` and then rejected. -/
theorem processAddedType_node (assertValidName : String → Except Error Unit)
    (sc : SchemaComposer) (node : TypeComposer) (hname : node.name = "Node") :
    processAddedType assertValidName sc node = (sc.set "Node" node, some .reservedNode) := by
  simp [processAddedType, SchemaComposer.addAsComposer, hname, checkIsAllowedTypeName,
    invariant, bind, Except.bind]

/-! ## Lemmas on the registry -/

theorem SchemaComposer.get_of_set (sc : SchemaComposer) (k : String) (tc : TypeComposer)
    (k' : String) : (sc.set k tc).get k' = if k = k' then some tc else sc.get k' := by
  simp [SchemaComposer.get, SchemaComposer.set, Obj.get_set]

/-- The getter `Query` returns an object type composer stored under `Query` and
changes no other entry. -/
theorem SchemaComposer.Query_spec (sc : SchemaComposer) :
    (sc.Query).1.get "Query" = some (sc.Query).2
    ∧ (sc.Query).2.kind = .TypeComposer
    ∧ (sc.Query).1.schemaMustHaveTypes = sc.schemaMustHaveTypes
    ∧ ∀ k, k ≠ "Query" → (sc.Query).1.get k = sc.get k := by
  unfold SchemaComposer.Query SchemaComposer.getTC
  cases hg : Obj.get sc.types "Query" with
  | none =>
    simp only [SchemaComposer.get_of_set, if_true]
    refine ⟨trivial, rfl, rfl, ?_⟩
    intro k hk
    simp [Ne.symm hk]
  | some tc =>
    by_cases hk : tc.kind = .TypeComposer
    · simp only [hk, if_true]
      exact ⟨hg, trivial, trivial, fun _ _ => trivial⟩
    · simp only [hk, if_false, SchemaComposer.get_of_set, if_true]
      refine ⟨trivial, rfl, rfl, ?_⟩
      intro k hk
      simp [Ne.symm hk]

/-- The call of `createResolvers` with one patch for one field of an existing object type. -/
theorem createResolvers_single (st : OverlayState) (typeName fieldName : String)
    (fieldConfig : FieldConfig) (tc : TypeComposer)
    (hget : st.schemaComposer.get typeName = some tc) (hkind : tc.kind = .TypeComposer) :
    createResolvers [(typeName, [(fieldName, fieldConfig)])] st =
      ({ schemaComposer := st.schemaComposer.set typeName
            (createResolversField typeName [(fieldName, fieldConfig)]
              (tc, st.warnings) fieldName).1.1,
         warnings := (createResolversField typeName [(fieldName, fieldConfig)]
              (tc, st.warnings) fieldName).1.2 },
       (createResolversField typeName [(fieldName, fieldConfig)]
              (tc, st.warnings) fieldName).2) := by
  have hhas : st.schemaComposer.has typeName = true := by
    simp only [SchemaComposer.get] at hget
    simp [SchemaComposer.has, Obj.has, hget]
  have htc : st.schemaComposer.getTC typeName = .ok tc := by
    simp only [SchemaComposer.get] at hget
    simp [SchemaComposer.getTC, hget, hkind]
  simp only [createResolvers, Obj.keys, List.map_cons, List.map_nil, forEach, Obj.get, if_true,
    Option.getD_some, hhas, htc]
  rcases createResolversField typeName [(fieldName, fieldConfig)] (tc, st.warnings) fieldName
    with ⟨⟨tc1, w⟩, _ | e⟩ <;> rfl

/-- Writing back the composer that an entry already holds changes nothing. -/
theorem SchemaComposer.set_of_get (sc : SchemaComposer) (k : String) (tc : TypeComposer)
    (h : sc.get k = some tc) : sc.set k tc = sc := by
  cases sc with
  | mk types must =>
    simp only [SchemaComposer.get] at h
    simp [SchemaComposer.set, Obj.set_eq_self _ _ _ h]

/-- The comparison of the field's type object with a string in `createResolvers`
is never true. -/
theorem fieldTypeEquals_eq_false (tc : TypeComposer) (fieldName : String)
    (fieldConfig : FieldConfig) : fieldTypeEquals tc fieldName fieldConfig = false := by
  unfold fieldTypeEquals TypeComposer.getFieldType
  cases hf : Obj.get tc.fields fieldName with
  | none => rfl
  | some fc =>
    obtain ⟨ty, ar, re⟩ := fc
    obtain ⟨ty2, ar2, re2⟩ := fieldConfig
    cases ty <;> cases ty2 <;> rfl

/-- The loop body on an existing field with a type: the patch is applied when it
declares no type or the type is third-party, and otherwise only a warning is given. -/
theorem createResolversField_existing (typeName fieldName : String) (fieldConfig : FieldConfig)
    (tc : TypeComposer) (warnings : List Warning)
    (originalFieldConfig : FieldConfig) (originalType : TypeDef)
    (hfield : tc.fields.get fieldName = some originalFieldConfig)
    (horiginal : originalFieldConfig.type = some originalType) :
    createResolversField typeName [(fieldName, fieldConfig)] (tc, warnings) fieldName =
      if truthyString (fieldConfig.type.map TypeDef.toString) = false
          ∨ tc.isThirdPartyType = true then
        ((tc.extendField fieldName (newConfig fieldConfig originalFieldConfig.resolve),
          warnings), none)
      else
        ((tc, warnings ++ [.fieldTypeMismatch typeName fieldName
          ((fieldConfig.type.map TypeDef.toString).getD "") originalType.resolvedText]), none) := by
  simp only [createResolversField, Obj.get, if_true, hfield, horiginal,
    fieldTypeEquals_eq_false]
  cases ht : truthyString (fieldConfig.type.map TypeDef.toString) <;>
    cases h3 : tc.isThirdPartyType <;> simp

/-! ## Lemmas on the enrichment of a node type -/

/-- Merging entries that the dictionary already holds changes nothing. -/
theorem Obj.assign_eq_self {α : Type} (src : Obj α) (o : Obj α)
    (h : ∀ kv ∈ src, Obj.get o kv.1 = some kv.2) : Obj.assign o src = o := by
  unfold Obj.assign
  induction src with
  | nil => rfl
  | cons kv rest ih =>
    rw [List.foldl_cons, Obj.set_eq_self _ _ _ (h kv (by simp))]
    exact ih (fun kv' h' => h kv' (List.mem_cons_of_mem _ h'))

/-- After a merge of entries with distinct keys each entry can be read back. -/
theorem Obj.get_assign_of_mem {α : Type} (src : Obj α) (o : Obj α)
    (hnd : (Obj.keys src).Nodup) (kv : String × α) (hkv : kv ∈ src) :
    Obj.get (Obj.assign o src) kv.1 = some kv.2 := by
  unfold Obj.assign
  refine Obj.get_foldl_set_of_unique Prod.fst Prod.snd src kv hkv ?_ o
  intro kv' hkv' heq
  have h1 := Obj.get_of_mem src kv'.1 kv'.2 hnd hkv'
  have h2 := Obj.get_of_mem src kv.1 kv.2 hnd hkv
  rw [heq, h2] at h1
  cases kv; cases kv'
  simp only at heq h1
  simp only [Option.some.injEq] at h1
  rw [heq, h1]

/-- Merging the same entries twice is merging them once. -/
theorem Obj.assign_assign_self {α : Type} (src : Obj α) (o : Obj α)
    (hnd : (Obj.keys src).Nodup) : Obj.assign (Obj.assign o src) src = Obj.assign o src :=
  Obj.assign_eq_self src _ (fun kv hkv => Obj.get_assign_of_mem src o hnd kv hkv)

/-- An object literal with two computed keys has each key once. -/
theorem Obj.nodup_keys_pair {α : Type} (a b : String) (x y : α) :
    (Obj.keys (Obj.set (Obj.set [] a x) b y)).Nodup :=
  Obj.nodup_keys_set _ _ _ (Obj.nodup_keys_set _ _ _ (by simp [Obj.keys]))

/-- Writing two distinct keys again with the same values changes nothing. -/
theorem Obj.set_set_again {α : Type} (o : Obj α) (a b : String) (x y : α) (hab : a ≠ b) :
    Obj.set (Obj.set (Obj.set (Obj.set o a x) b y) a x) b y = Obj.set (Obj.set o a x) b y := by
  have h1 : Obj.get (Obj.set (Obj.set o a x) b y) a = some x := by
    rw [Obj.get_set_ne _ _ _ _ (Ne.symm hab), Obj.get_set_self]
  rw [Obj.set_eq_self _ a x h1, Obj.set_eq_self _ b y (Obj.get_set_self _ _ _)]

/-- The getter `Query` on a registry that holds an object type under `Query`. -/
theorem SchemaComposer.Query_of_get (sc : SchemaComposer) (q : TypeComposer)
    (h : sc.get "Query" = some q) (hk : q.kind = .TypeComposer) : sc.Query = (sc, q) := by
  simp only [SchemaComposer.get] at h
  simp [SchemaComposer.Query, SchemaComposer.getTC, h, hk]

/-- Enriching an enriched type again, before the relationship fields, changes nothing. -/
theorem addResolvers_addNodeInterfaceFields_again (nodeInterfaceFields : Obj FieldConfig)
    (getSortInput getFilterInput : String → Obj FieldConfig → InputTypeComposer)
    (getPagination : String → Obj FieldConfig → TypeDef) (tc : TypeComposer)
    (hnd : (Obj.keys nodeInterfaceFields).Nodup) :
    addResolvers getSortInput getFilterInput getPagination
      (addNodeInterfaceFields nodeInterfaceFields
        (addResolvers getSortInput getFilterInput getPagination
          (addNodeInterfaceFields nodeInterfaceFields tc))) =
      addResolvers getSortInput getFilterInput getPagination
        (addNodeInterfaceFields nodeInterfaceFields tc) := by
  simp only [addResolvers, addNodeInterfaceFields, TypeComposer.addFields,
    TypeComposer.removeInputTypeComposer, TypeComposer.addResolver,
    Obj.assign_assign_self nodeInterfaceFields tc.fields hnd]
  rw [Obj.set_set_again _ _ _ _ _ (by decide)]

/-- The root query wiring of a type that has both standard resolvers. -/
theorem addTypeToRootQuery_eq (camelCase : String → String) (sc : SchemaComposer)
    (tc : TypeComposer) (findOne findManyPaginated : Resolver)
    (h1 : tc.resolvers.get "findOne" = some findOne)
    (h2 : tc.resolvers.get "findManyPaginated" = some findManyPaginated) :
    addTypeToRootQuery camelCase sc tc =
      ((sc.Query).1.set "Query" ((sc.Query).2.addFields
        (Obj.set (Obj.set [] (camelCase tc.name) findOne.toFieldConfig)
          (camelCase ("all " ++ tc.name)) findManyPaginated.toFieldConfig)), none) := by
  simp only [addTypeToRootQuery, h1, h2]

/-- The standard resolvers are present after `addResolvers`. -/
theorem addResolvers_resolvers (getSortInput getFilterInput : String → Obj FieldConfig → InputTypeComposer)
    (getPagination : String → Obj FieldConfig → TypeDef) (tc : TypeComposer) :
    ∃ findOne findManyPaginated,
      (addResolvers getSortInput getFilterInput getPagination tc).resolvers.get "findOne"
        = some findOne
      ∧ (addResolvers getSortInput getFilterInput getPagination tc).resolvers.get
          "findManyPaginated" = some findManyPaginated := by
  have h1 : ∃ r, (addResolvers getSortInput getFilterInput getPagination tc).resolvers.get
      "findOne" = some r := by
    simp only [addResolvers, TypeComposer.addResolver]
    rw [Obj.get_set_ne _ _ _ _ (by decide), Obj.get_set_self]
    exact ⟨_, rfl⟩
  have h2 : ∃ r, (addResolvers getSortInput getFilterInput getPagination tc).resolvers.get
      "findManyPaginated" = some r := by
    simp only [addResolvers, TypeComposer.addResolver]
    rw [Obj.get_set_self]
    exact ⟨_, rfl⟩
  obtain ⟨r1, hr1⟩ := h1
  obtain ⟨r2, hr2⟩ := h2
  exact ⟨r1, r2, hr1, hr2⟩

/-! ## Theorems -/

/-- C1: `checkIsAllowedTypeName n` fails exactly when `n` is `Node`, or ends with
`FilterInput` or `SortInput`, or is one of the seven scalar names, or is rejected
by `assertValidName`; in every other case it returns normally. -/
theorem checkIsAllowedTypeName_fails_iff (assertValidName : String → Except Error Unit)
    (n : String) :
    ((∃ e, checkIsAllowedTypeName assertValidName n = .error e) ↔
      (n = "Node"
        ∨ (∃ p : List Char, n.data = p ++ "FilterInput".data)
        ∨ (∃ p : List Char, n.data = p ++ "SortInput".data)
        ∨ n ∈ ["Boolean", "Date", "Float", "ID", "Int", "JSON", "String"]
        ∨ ∃ e, assertValidName n = .error e))
    ∧ (checkIsAllowedTypeName assertValidName n = .ok () ↔
      ¬ (n = "Node"
        ∨ (∃ p : List Char, n.data = p ++ "FilterInput".data)
        ∨ (∃ p : List Char, n.data = p ++ "SortInput".data)
        ∨ n ∈ ["Boolean", "Date", "Float", "ID", "Int", "JSON", "String"]
        ∨ ∃ e, assertValidName n = .error e)) := by
  have hsuf : ∀ s : String, endsWith n s = true ↔ ∃ p : List Char, n.data = p ++ s.data := by
    intro s
    unfold endsWith
    rw [List.isSuffixOf_iff_suffix]
    constructor
    · rintro ⟨p, hp⟩; exact ⟨p, hp.symm⟩
    · rintro ⟨p, hp⟩; exact ⟨p, hp.symm⟩
  rw [← hsuf "FilterInput", ← hsuf "SortInput"]
  have hmem : n ∈ ["Boolean", "Date", "Float", "ID", "Int", "JSON", "String"] ↔
      n ∈ reservedScalarNames := by
    simp [reservedScalarNames]
  rw [hmem]
  unfold checkIsAllowedTypeName invariant
  by_cases h1 : n = "Node"
  · subst h1
    simp [bind, Except.bind]
  · by_cases h2 : endsWith n "FilterInput" = true
    · simp [h1, h2, bind, Except.bind]
    · by_cases h3 : endsWith n "SortInput" = true
      · simp [h1, h2, h3, bind, Except.bind]
      · by_cases h4 : n ∈ reservedScalarNames
        · simp [h1, h2, h3, h4, bind, Except.bind]
        · cases h5 : assertValidName n with
          | error e => simp [h1, h2, h3, h4, h5, bind, Except.bind]
          | ok u => cases u; simp [h1, h2, h3, h4, h5, bind, Except.bind]

/-- C2 (amended): for a list with a type named `Node`, `addTypes` processes the
elements before it in order; if one of them is rejected it fails there, and
otherwise it fails at `Node` with the reserved-name error, in the registry reached
after the preceding types, with `Node` itself stored by `addAsComposer`; the
elements after `Node` are not processed. When `Node` is defined in a text of type
definitions, all types of that text are stored first and those before `Node` in the
text are processed before the failure. -/
theorem addTypes_node (assertValidName : String → Except Error Unit)
    (parseTypeDefs : String → Except Error (List TypeComposer))
    (pre post : List TypeOrTypeDef) (node : TypeComposer)
    (schemaComposer : SchemaComposer)
    (hname : node.name = "Node") :
    (∀ item, (item = .type node
        ∨ ∃ g, item = .gatsbyType g ∧ createTypeComposerFromGatsbyType g = some node) →
      addTypes assertValidName parseTypeDefs (pre ++ item :: post) schemaComposer =
        match addTypes assertValidName parseTypeDefs pre schemaComposer with
        | (sc1, none) => (sc1.set "Node" node, some .reservedNode)
        | (sc1, some e) => (sc1, some e))
    ∧ (∀ source before after, parseTypeDefs source = .ok (before ++ node :: after) →
      addTypes assertValidName parseTypeDefs (pre ++ .typeDefs source :: post) schemaComposer =
        match addTypes assertValidName parseTypeDefs pre schemaComposer with
        | (sc1, none) =>
          match forEach (processAddedType assertValidName) before
              ((before ++ node :: after).foldl (fun acc type => acc.add type) sc1) with
          | (sc2, none) => (sc2.set "Node" node, some .reservedNode)
          | (sc2, some e) => (sc2, some e)
        | (sc1, some e) => (sc1, some e)) := by
  constructor
  · intro item hitem
    unfold addTypes
    rw [forEach_append]
    rcases hpre : forEach _ pre schemaComposer with ⟨sc1, _ | e⟩
    · simp only [forEach]
      rcases hitem with rfl | ⟨g, rfl, hg⟩
      · simp [processAddedType_node assertValidName sc1 node hname]
      · simp [hg, processAddedType_node assertValidName sc1 node hname]
    · rfl
  · intro source before after hparse
    unfold addTypes
    rw [forEach_append]
    rcases hpre : forEach _ pre schemaComposer with ⟨sc1, _ | e⟩
    · simp only [forEach, SchemaComposer.addTypeDefs, hparse]
      rw [forEach_append]
      rcases hin : forEach (processAddedType assertValidName) before
          ((before ++ node :: after).foldl (fun acc type => acc.add type) sc1) with ⟨sc2, _ | e⟩
      · simp [forEach, processAddedType_node assertValidName sc2 node hname]
      · rfl
    · rfl

/-- C2 as stated fails: with `Person` before `Node`, the call fails with the
reserved-name error and the registry then holds both `Person` and `Node`. -/
theorem addTypes_node_counterexample :
    (addTypes exampleAssertValidName exampleParseTypeDefs
        [.type examplePerson, .type exampleNodeType] emptySchemaComposer).2
      = some .reservedNode
    ∧ (addTypes exampleAssertValidName exampleParseTypeDefs
        [.type examplePerson, .type exampleNodeType] emptySchemaComposer).1.get "Person"
      = some examplePerson
    ∧ (addTypes exampleAssertValidName exampleParseTypeDefs
        [.type examplePerson, .type exampleNodeType] emptySchemaComposer).1.get "Node"
      = some exampleNodeType
    ∧ (addTypes exampleAssertValidName exampleParseTypeDefs
        [.type examplePerson, .type exampleNodeType] emptySchemaComposer).1.schemaMustHaveTypes
      = ["Person"] := by
  decide

/-- C2 (amended) at the list `Person`, `Node`, `Pet`. -/
theorem addTypes_node_witness :
    addTypes exampleAssertValidName exampleParseTypeDefs
        ([.type examplePerson] ++ .type exampleNodeType :: [.type examplePet])
        emptySchemaComposer =
      (((emptySchemaComposer.set "Person" examplePerson).addSchemaMustHaveType "Person").set
        "Node" exampleNodeType, some .reservedNode) :=
  (addTypes_node exampleAssertValidName exampleParseTypeDefs [.type examplePerson]
    [.type examplePet] exampleNodeType emptySchemaComposer rfl).1
    (.type exampleNodeType) (Or.inl rfl)
/-- C3 (amended): when every listed child id resolves, the type has neither field
yet and no other child type yields one of the two field names, the plural field
`childrenT` is added (and no `childT`) exactly when two children of type `T` have
the same `parent` value, and the singular `childT` (and no `childrenT`) exactly when
`T` occurs among the children and no two share a `parent` value. When each listed
child has the listing node as `parent` and the nodes have distinct ids, two children
share a `parent` value exactly when one node lists two or more children of type `T`. -/
theorem addConvenienceChildrenFields_plural_iff (camelCase : String → String)
    (nodeStore : NodeStore) (typeComposer : TypeComposer) (children : List Node) (T : String)
    (hresolve : childNodes nodeStore (nodeStore.getNodesByType typeComposer.name)
      = children.map some)
    (hfresh : typeComposer.fields.get (camelCase ("children " ++ T)) = none
      ∧ typeComposer.fields.get (camelCase ("child " ++ T)) = none)
    (hnames : camelCase ("child " ++ T) ≠ camelCase ("children " ++ T)
      ∧ ∀ c ∈ children, internalTypeKey c ≠ T →
          camelCase ("child " ++ internalTypeKey c) ≠ camelCase ("child " ++ T)
          ∧ camelCase ("child " ++ internalTypeKey c) ≠ camelCase ("children " ++ T)
          ∧ camelCase ("children " ++ internalTypeKey c) ≠ camelCase ("child " ++ T)
          ∧ camelCase ("children " ++ internalTypeKey c) ≠ camelCase ("children " ++ T)) :
    (addConvenienceChildrenFields camelCase nodeStore typeComposer).2 = none
    ∧ (((addConvenienceChildrenFields camelCase nodeStore typeComposer).1.fields.get
            (camelCase ("children " ++ T)) = some (childrenFieldConfig T)
        ∧ (addConvenienceChildrenFields camelCase nodeStore typeComposer).1.fields.get
            (camelCase ("child " ++ T)) = none)
      ↔ ∃ k, 2 ≤ (children.filter
          (fun c => decide (internalTypeKey c = T ∧ parentKey c = k))).length)
    ∧ (((addConvenienceChildrenFields camelCase nodeStore typeComposer).1.fields.get
            (camelCase ("child " ++ T)) = some (childFieldConfig T)
        ∧ (addConvenienceChildrenFields camelCase nodeStore typeComposer).1.fields.get
            (camelCase ("children " ++ T)) = none)
      ↔ ((∃ c ∈ children, internalTypeKey c = T)
        ∧ ¬ ∃ k, 2 ≤ (children.filter
          (fun c => decide (internalTypeKey c = T ∧ parentKey c = k))).length))
    ∧ (((nodeStore.getNodesByType typeComposer.name).map Node.id).Nodup
        ∧ (∀ n ∈ nodeStore.getNodesByType typeComposer.name, ∀ id ∈ n.children.getD [], ∀ c,
            nodeStore.getNode id = some c → c.parent = some n.id)
      → ((∃ k, 2 ≤ (children.filter
            (fun c => decide (internalTypeKey c = T ∧ parentKey c = k))).length)
        ↔ ∃ n ∈ nodeStore.getNodesByType typeComposer.name,
            2 ≤ ((n.children.getD []).filter (fun id =>
              decide ((nodeStore.getNode id).map internalTypeKey = some T))).length)) := by
  classical
  have hall : allDefined (childNodes nodeStore (nodeStore.getNodesByType typeComposer.name))
      = some children := (allDefined_eq_some _ _).2 hresolve
  obtain ⟨hok, hfields⟩ :=
    addConvenienceChildrenFields_fields camelCase nodeStore typeComposer children hall
      (fun T' => ∃ k, 2 ≤ (children.filter
        (fun c => decide (internalTypeKey c = T' ∧ parentKey c = k))).length)
      (fun _ => Iff.rfl)
  have hkeys : ∀ T', T' ∈ Obj.keys (groupBy internalTypeKey children) ↔
      ∃ c ∈ children, internalTypeKey c = T' := by
    intro T'
    rw [mem_keys_groupBy]
    simp
  have hPkeys : (∃ k, 2 ≤ (children.filter
      (fun c => decide (internalTypeKey c = T ∧ parentKey c = k))).length) →
      ∃ c ∈ children, internalTypeKey c = T := by
    rintro ⟨k, hk⟩
    have hne : children.filter
        (fun c => decide (internalTypeKey c = T ∧ parentKey c = k)) ≠ [] := by
      intro h; rw [h] at hk; simp at hk
    obtain ⟨c, hc⟩ := List.exists_mem_of_ne_nil _ hne
    simp only [List.mem_filter, decide_eq_true_eq] at hc
    exact ⟨c, hc.1, hc.2.1⟩
  obtain ⟨hA, hB, hC⟩ := get_relationship_fields camelCase
    (Obj.keys (groupBy internalTypeKey children))
    (fun T' => ∃ k, 2 ≤ (children.filter
        (fun c => decide (internalTypeKey c = T' ∧ parentKey c = k))).length)
    T typeComposer.fields hnames.1 (by
      intro T' hT' hTne
      obtain ⟨c, hc, rfl⟩ := (hkeys T').1 hT'
      exact hnames.2 c hc hTne)
  rw [← hfields] at hA hB hC
  rw [hfresh.1, hfresh.2] at *
  refine ⟨hok, ?_, ?_, ?_⟩
  · constructor
    · rintro ⟨h1, h2⟩
      by_contra hp
      by_cases hT : T ∈ Obj.keys (groupBy internalTypeKey children)
      · rw [(hB hT hp).1] at h2; cases h2
      · rw [(hC hT).2] at h1; cases h1
    · intro hp
      exact hA ((hkeys T).2 (hPkeys hp)) hp
  · constructor
    · rintro ⟨h1, h2⟩
      by_cases hT : T ∈ Obj.keys (groupBy internalTypeKey children)
      · refine ⟨(hkeys T).1 hT, ?_⟩
        intro hp
        rw [(hA hT hp).1] at h2; cases h2
      · rw [(hC hT).1] at h1; cases h1
    · rintro ⟨hT, hp⟩
      exact hB ((hkeys T).2 hT) hp
  · rintro ⟨hnd, hc⟩
    exact exists_siblings_iff_of_consistent nodeStore T _ children hresolve hnd hc


/-- C3 as stated fails: two `Person` nodes list one `Pet` child each, so no node has
two children of type `Pet`; both children have `parent: null`, they fall in one
group, and the plural field is added. -/
theorem addConvenienceChildrenFields_plural_counterexample :
    (addConvenienceChildrenFields exampleCamelCase (NodeStore.ofList exampleOrphanNodes)
        examplePerson).1.fields.get "childrenPet" = some (childrenFieldConfig "Pet")
    ∧ (addConvenienceChildrenFields exampleCamelCase (NodeStore.ofList exampleOrphanNodes)
        examplePerson).1.fields.get "childPet" = none
    ∧ ¬ ∃ n ∈ (NodeStore.ofList exampleOrphanNodes).getNodesByType "Person",
        2 ≤ ((n.children.getD []).filter (fun id =>
          decide (((NodeStore.ofList exampleOrphanNodes).getNode id).map internalTypeKey
            = some "Pet"))).length := by
  decide

/-- C3 (amended) at the `Person` type of the example store: the first node lists two
`Pet` children with the same parent, and the plural field is added. -/
theorem addConvenienceChildrenFields_plural_iff_witness :
    (addConvenienceChildrenFields exampleCamelCase (NodeStore.ofList exampleNodes)
        examplePerson).1.fields.get (exampleCamelCase ("children " ++ "Pet"))
      = some (childrenFieldConfig "Pet")
    ∧ (addConvenienceChildrenFields exampleCamelCase (NodeStore.ofList exampleNodes)
        examplePerson).1.fields.get (exampleCamelCase ("child " ++ "Pet")) = none :=
  (addConvenienceChildrenFields_plural_iff exampleCamelCase (NodeStore.ofList exampleNodes)
    examplePerson
    [ { id := "a", parent := some "p1", children := some [], internal := some { type := "Pet" } },
      { id := "b", parent := some "p1", children := some [], internal := some { type := "Pet" } } ]
    "Pet" (by decide) (by decide) (by decide)).2.1.2 ⟨"p1", by decide⟩
/-- C9: for a node type whose nodes list no child ids (`children` empty or absent),
`addConvenienceChildrenFields` returns the type unchanged: no field is added. -/
theorem addConvenienceChildrenFields_no_children (camelCase : String → String)
    (nodeStore : NodeStore) (typeComposer : TypeComposer)
    (h : ∀ n ∈ nodeStore.getNodesByType typeComposer.name,
      n.children = none ∨ n.children = some []) :
    addConvenienceChildrenFields camelCase nodeStore typeComposer = (typeComposer, none) := by
  have hch : childNodes nodeStore (nodeStore.getNodesByType typeComposer.name) = [] := by
    simp only [childNodes, List.flatMap_eq_nil_iff]
    intro n hn
    rcases h n hn with h1 | h1 <;> simp [h1]
  simp [addConvenienceChildrenFields, groupChildNodesByType, hch, allDefined, groupBy, Obj.keys,
    forEach]


/-- C9 at the `Pet` type of the example store, whose nodes list no children. -/
theorem addConvenienceChildrenFields_no_children_witness :
    addConvenienceChildrenFields exampleCamelCase (NodeStore.ofList exampleNodes) examplePet
      = (examplePet, none) :=
  addConvenienceChildrenFields_no_children exampleCamelCase (NodeStore.ofList exampleNodes)
    examplePet (by decide)
/-- C5 fails on the code: on the local type `Person`, whose field `name` has type
`String`, a patch that declares the type `String` is not accepted: the code compares
the field's type object with the string, which never holds, gives the warning and
leaves the field unchanged. -/
theorem createResolvers_same_type_rejected :
    createResolvers [("Person", [("name", exampleSameType)])] exampleOverlayState =
      ({ schemaComposer := exampleOverlayState.schemaComposer,
         warnings := [.fieldTypeMismatch "Person" "name" "String" "String"] }, none) := by
  decide

/-- C6: for an accepted patch (it declares no type, or the type is third-party) with a
resolver on an existing field: the resolver installed on the field, called with
`(source, args, context, info)`, returns what the patch's resolver returns on
`(source, args, context, info1)`, where `info1` is `info` with the key
`originalResolver` set to the previous resolver of the field, or to
`defaultFieldResolver` when it had none, and every other key as in `info`. -/
theorem createResolvers_resolver_wrapped
    (prim : ResolveFn → String → String → String → Obj InfoValue → String)
    (st : OverlayState) (typeName fieldName : String)
    (tc : TypeComposer) (originalFieldConfig : FieldConfig) (originalType : TypeDef)
    (fieldConfig : FieldConfig) (resolve : ResolveFn)
    (hget : st.schemaComposer.get typeName = some tc) (hkind : tc.kind = .TypeComposer)
    (hfield : tc.fields.get fieldName = some originalFieldConfig)
    (horiginal : originalFieldConfig.type = some originalType)
    (hresolve : fieldConfig.resolve = some resolve)
    (haccepted : truthyString (fieldConfig.type.map TypeDef.toString) = false
      ∨ tc.isThirdPartyType = true) :
    ∃ st1 tc1 fc1 installed,
      createResolvers [(typeName, [(fieldName, fieldConfig)])] st = (st1, none)
      ∧ st1.warnings = st.warnings
      ∧ st1.schemaComposer.get typeName = some tc1
      ∧ tc1.fields.get fieldName = some fc1
      ∧ fc1.resolve = some installed
      ∧ ∀ source args context info,
          installed.call prim source args context info =
            resolve.call prim source args context
              (Obj.set info "originalResolver"
                (.resolver (originalFieldConfig.resolve.getD .defaultFieldResolver)))
          ∧ Obj.get (Obj.set info "originalResolver"
                (.resolver (originalFieldConfig.resolve.getD .defaultFieldResolver)))
              "originalResolver"
            = some (.resolver (originalFieldConfig.resolve.getD .defaultFieldResolver))
          ∧ ∀ key, key ≠ "originalResolver" →
              Obj.get (Obj.set info "originalResolver"
                (.resolver (originalFieldConfig.resolve.getD .defaultFieldResolver))) key
              = Obj.get info key := by
  rw [createResolvers_single st typeName fieldName fieldConfig tc hget hkind,
    createResolversField_existing typeName fieldName fieldConfig tc st.warnings
      originalFieldConfig originalType hfield horiginal, if_pos haccepted]
  refine ⟨OverlayState.mk (st.schemaComposer.set typeName
        (tc.extendField fieldName (newConfig fieldConfig originalFieldConfig.resolve)))
      st.warnings,
    tc.extendField fieldName (newConfig fieldConfig originalFieldConfig.resolve),
    FieldConfig.mk
      ((newConfig fieldConfig originalFieldConfig.resolve).type <|> originalFieldConfig.type)
      ((newConfig fieldConfig originalFieldConfig.resolve).args <|> originalFieldConfig.args)
      ((newConfig fieldConfig originalFieldConfig.resolve).resolve
        <|> originalFieldConfig.resolve),
    ResolveFn.overlay resolve (originalFieldConfig.resolve.getD .defaultFieldResolver),
    rfl, rfl, ?_, ?_, ?_, ?_⟩
  · simp only [SchemaComposer.get_of_set, if_true]
  · simp only [TypeComposer.extendField, hfield]
    exact Obj.get_set_self _ _ _
  · simp only [newConfig, hresolve, Option.map_some']
    rfl
  · intro source args context info
    refine ⟨rfl, Obj.get_set_self _ _ _, ?_⟩
    intro key hkey
    exact Obj.get_set_ne _ _ _ _ (Ne.symm hkey)

/-- C6 at the field `Person.name`, which has no resolver, and a patch with only a resolver. -/
theorem createResolvers_resolver_wrapped_witness :
    ∃ st1 tc1 fc1 installed,
      createResolvers [("Person", [("name", exampleResolverOnly)])] exampleOverlayState
        = (st1, none)
      ∧ st1.warnings = []
      ∧ st1.schemaComposer.get "Person" = some tc1
      ∧ tc1.fields.get "name" = some fc1
      ∧ fc1.resolve = some installed
      ∧ installed.call examplePrim "source" "args" "context" [("path", .data "name")]
        = "external:path,originalResolver" := by
  obtain ⟨st1, tc1, fc1, installed, h1, h2, h3, h4, h5, h6⟩ :=
    createResolvers_resolver_wrapped examplePrim exampleOverlayState "Person" "name"
      examplePersonWithName exampleStringField (.object "String") exampleResolverOnly
      (.external 1) (by decide) (by decide) (by decide) (by decide) (by decide)
      (Or.inl (by decide))
  refine ⟨st1, tc1, fc1, installed, h1, h2, h3, h4, h5, ?_⟩
  rw [(h6 "source" "args" "context" [("path", .data "name")]).1]
  decide

/-- C7 (amended): running `processTypeComposer` on a type twice leaves the registry
(the type's resolvers and fields and the root query fields) as running it once,
provided the type is not `Query` itself, the identity fields have distinct names,
and the relationship step of the first run leaves the type as it was after
`addResolvers`: it adds no field that the type did not have already (as when the
type's nodes list no children). -/
theorem processTypeComposer_idempotent (camelCase : String → String)
    (nodeInterfaceFields : Obj FieldConfig)
    (getSortInput getFilterInput : String → Obj FieldConfig → InputTypeComposer)
    (getPagination : String → Obj FieldConfig → TypeDef) (nodeStore : NodeStore)
    (schemaComposer : SchemaComposer) (typeName : String)
    (hname : typeName ≠ "Query")
    (hfields : (Obj.keys nodeInterfaceFields).Nodup)
    (hstable : ∀ tc, schemaComposer.get typeName = some tc →
      addConvenienceChildrenFields camelCase nodeStore
          (addResolvers getSortInput getFilterInput getPagination
            (addNodeInterfaceFields nodeInterfaceFields tc)) =
        (addResolvers getSortInput getFilterInput getPagination
            (addNodeInterfaceFields nodeInterfaceFields tc), none)) :
    processTypeComposer camelCase nodeInterfaceFields getSortInput getFilterInput getPagination
        nodeStore
        (processTypeComposer camelCase nodeInterfaceFields getSortInput getFilterInput
          getPagination nodeStore schemaComposer typeName).1 typeName =
      processTypeComposer camelCase nodeInterfaceFields getSortInput getFilterInput getPagination
        nodeStore schemaComposer typeName := by
  cases hget : schemaComposer.get typeName with
  | none => simp [processTypeComposer, hget]
  | some tc =>
    by_cases hnode : tc.kind = .TypeComposer ∧ tc.hasInterface "Node" = true
    · have hst := hstable tc hget
      obtain ⟨findOne, findManyPaginated, hr1, hr2⟩ :=
        addResolvers_resolvers getSortInput getFilterInput getPagination
          (addNodeInterfaceFields nodeInterfaceFields tc)
      generalize htc2 : addResolvers getSortInput getFilterInput getPagination
          (addNodeInterfaceFields nodeInterfaceFields tc) = tc2 at hst hr1 hr2
      have hagain : addResolvers getSortInput getFilterInput getPagination
          (addNodeInterfaceFields nodeInterfaceFields tc2) = tc2 := by
        rw [← htc2]
        exact addResolvers_addNodeInterfaceFields_again nodeInterfaceFields getSortInput
          getFilterInput getPagination tc hfields
      have hnode2 : tc2.kind = .TypeComposer ∧ tc2.hasInterface "Node" = true := by
        rw [← htc2]
        exact hnode
      have hrun1 : processTypeComposer camelCase nodeInterfaceFields getSortInput
          getFilterInput getPagination nodeStore schemaComposer typeName =
          addTypeToRootQuery camelCase (schemaComposer.set typeName tc2) tc2 := by
        simp only [processTypeComposer, hget, hnode, and_self, if_true, htc2, hst]
      rw [hrun1, addTypeToRootQuery_eq camelCase _ tc2 findOne findManyPaginated hr1 hr2]
      obtain ⟨hq1, hq2, -, hq4⟩ := SchemaComposer.Query_spec (schemaComposer.set typeName tc2)
      generalize hQ : (schemaComposer.set typeName tc2).Query = Q at hq1 hq2 hq4
      obtain ⟨scq, query⟩ := Q
      simp only at hq1 hq2 hq4 ⊢
      generalize hnew : Obj.set (Obj.set [] (camelCase tc2.name) findOne.toFieldConfig)
        (camelCase ("all " ++ tc2.name)) findManyPaginated.toFieldConfig = newFields
      have hnd : (Obj.keys newFields).Nodup := by
        rw [← hnew]; exact Obj.nodup_keys_pair _ _ _ _
      have hget1 : (scq.set "Query" (query.addFields newFields)).get typeName = some tc2 := by
        rw [SchemaComposer.get_of_set, if_neg (Ne.symm hname), hq4 typeName hname,
          SchemaComposer.get_of_set, if_pos rfl]
      have hgetQ : (scq.set "Query" (query.addFields newFields)).get "Query"
          = some (query.addFields newFields) := by
        rw [SchemaComposer.get_of_set, if_pos rfl]
      have hkindQ : (query.addFields newFields).kind = .TypeComposer := hq2
      have haddQ : (query.addFields newFields).addFields newFields = query.addFields newFields := by
        simp only [TypeComposer.addFields, Obj.assign_assign_self newFields query.fields hnd]
      simp only [processTypeComposer, hget1, hnode2, and_self, if_true, hagain, hst]
      rw [SchemaComposer.set_of_get _ _ _ hget1,
        addTypeToRootQuery_eq camelCase _ tc2 findOne findManyPaginated hr1 hr2,
        SchemaComposer.Query_of_get _ _ hgetQ hkindQ]
      simp only [hnew, haddQ]
      rw [SchemaComposer.set_of_get _ _ _ hgetQ]
    · simp [processTypeComposer, hget, hnode]

/-- C7 as stated fails: `Person` has two `Pet` children in the store. The first run
synthesizes the arguments of `findOne` from the identity fields and then adds
`childrenPet`; the second run synthesizes them from a field set that holds
`childrenPet` too. -/
theorem processTypeComposer_idempotent_counterexample :
    ((processTypeComposer exampleCamelCase exampleNodeInterfaceFields exampleGetSortInput
        exampleGetFilterInput exampleGetPagination (NodeStore.ofList exampleNodes)
        exampleRegistry "Person").1.get "Person").bind
        (fun tc => (tc.resolvers.get "findOne").map (fun r => Obj.keys r.args))
      = some ["id", "parent", "children", "internal"]
    ∧ ((processTypeComposer exampleCamelCase exampleNodeInterfaceFields exampleGetSortInput
        exampleGetFilterInput exampleGetPagination (NodeStore.ofList exampleNodes)
        (processTypeComposer exampleCamelCase exampleNodeInterfaceFields exampleGetSortInput
          exampleGetFilterInput exampleGetPagination (NodeStore.ofList exampleNodes)
          exampleRegistry "Person").1 "Person").1.get "Person").bind
        (fun tc => (tc.resolvers.get "findOne").map (fun r => Obj.keys r.args))
      = some ["id", "parent", "children", "internal", "childrenPet"] := by
  decide

/-- C7 (amended) at the type `Pet`, whose nodes list no children. -/
theorem processTypeComposer_idempotent_witness :
    processTypeComposer exampleCamelCase exampleNodeInterfaceFields exampleGetSortInput
        exampleGetFilterInput exampleGetPagination (NodeStore.ofList exampleNodes)
        (processTypeComposer exampleCamelCase exampleNodeInterfaceFields exampleGetSortInput
          exampleGetFilterInput exampleGetPagination (NodeStore.ofList exampleNodes)
          exampleRegistry "Pet").1 "Pet" =
      processTypeComposer exampleCamelCase exampleNodeInterfaceFields exampleGetSortInput
        exampleGetFilterInput exampleGetPagination (NodeStore.ofList exampleNodes)
        exampleRegistry "Pet" :=
  processTypeComposer_idempotent exampleCamelCase exampleNodeInterfaceFields
    exampleGetSortInput exampleGetFilterInput exampleGetPagination
    (NodeStore.ofList exampleNodes) exampleRegistry "Pet" (by decide) (by decide)
    (by
      intro tc h
      have h2 : exampleRegistry.get "Pet" = some examplePet := by decide
      cases h.symm.trans h2
      decide)

end GatsbySchema
